import Mathlib

/-!
# Verification of the `sylphbyte/pipeline` Go repository

Shallow embedding of the pipeline-execution engine: a `Pipeline` owns an
ordered list of `Hook`s, a list of `Middleware`, and lifecycle callbacks;
`Pipeline.Execute` runs the hooks in order over a shared mutable
`PipeContext`, applying the middleware chain to each hook, honouring the
abort flag and the per-hook skip-on-error policy, and recording
`ExecutionStats`.

Modelling conventions:
* Go `error` values are modelled by the type parameter `ε`; a handler
  invocation yields an `Outcome ε`: a nil return (`ok`), a non-nil error
  (`err e`), or a panic carrying the formatted panic value (`panicked msg`).
  For the middleware files, whose errors are built with `errors.New` /
  `fmt.Errorf` with `%w`, errors are instantiated at `GoError`, which keeps
  the message text and the wrapped cause.
* A Go handler `func(ctx, pipeCtx) error` mutates the heap-allocated
  `PipeContext` through a pointer; it is embedded as a state-passing
  function `PipeContext → PipeContext × Outcome ε`.
* The ambient context argument `ctx C` is opaque to the engine (it is only
  forwarded, and its logging methods are no-ops in the shipped adapters),
  so it is omitted from the embedding.
* Wall-clock fields (`StartTime`, `EndTime`, `Duration`, `TotalDuration`)
  and the mutex are outside the model: timing values are real time and the
  orchestrator itself is single-threaded.  `time.Duration` values that are
  only stored (`Hook.Timeout`) or used as sleep lengths (retry backoff) are
  modelled as `Nat` nanosecond counts.
* `beforeExecute` / `afterExecute` callbacks receive the `PipeContext`
  pointer and may mutate it, so they are embedded as state transformers;
  `onError` callbacks receive only `(ctx, hookName, err)` and cannot touch
  the `PipeContext`, so the pipeline keeps just their registration count
  and every invocation of every callback is recorded in an observable
  event trace (`Event`), which also records callback ordering and each
  completed hook invocation.
-/

/-- A Go `error` value as produced by the middleware sources: either a leaf
error (`errors.New` / `fmt.Errorf` without `%w`) holding its message, or an
error produced by `fmt.Errorf("...: %w", cause)` holding the formatted text
in front of the cause's message and wrapping the cause. -/
inductive GoError where
  | new (msg : String)
  | wrapf (front : String) (cause : GoError)
  deriving DecidableEq, Repr

/-- `Error()`: the message text of a `GoError`. -/
def GoError.message : GoError → String
  | GoError.new m => m
  | GoError.wrapf f c => f ++ c.message

/-- `errors.Unwrap`: a `wrapf` error unwraps to its cause, a leaf does not
unwrap. -/
def GoError.Unwrap : GoError → Option GoError
  | GoError.new _ => none
  | GoError.wrapf _ c => some c

/-- The observable outcome of invoking one (possibly middleware-wrapped)
handler: returned nil, returned a non-nil error, or panicked (abnormal
stack unwind) with the formatted panic value. -/
inductive Outcome (ε : Type) where
  | ok : Outcome ε
  | err : ε → Outcome ε
  | panicked : String → Outcome ε
  deriving DecidableEq, Repr

/-- `PipeError` from `src/error.go`: the structured error `Execute` returns
when a non-skippable hook fails. -/
structure PipeError (ε : Type) where
  PipelineName : String
  HookName : String
  HookIndex : Nat
  Err : ε
  deriving DecidableEq, Repr

/-- `(*PipeError).Unwrap` from `src/error.go`: returns the original cause. -/
def PipeError.Unwrap (e : PipeError ε) : ε := e.Err

/-- `newPipeError` from `src/error.go`. -/
def newPipeError (pipelineName hookName : String) (hookIndex : Nat) (err : ε) :
    PipeError ε :=
  { PipelineName := pipelineName, HookName := hookName,
    HookIndex := hookIndex, Err := err }

/-- Observable events of one `Execute` run, in the order they happen:
invocation of the `i`-th `beforeExecute` callback, completion of the hook at
registration index `i` (with the error it returned, `none` for nil),
invocation of the `cb`-th `onError` callback with the failing hook's name
and error, and invocation of the `i`-th `afterExecute` callback with the
final error. -/
inductive Event (ε : Type) where
  | beforeCb (i : Nat)
  | hookRun (i : Nat) (name : String) (err : Option ε)
  | onErrorCb (cb : Nat) (hookName : String) (e : ε)
  | afterCb (i : Nat) (finalErr : Option (PipeError ε))
  deriving DecidableEq, Repr

/-- Is this event a completed hook invocation? -/
def Event.isHookRun : Event ε → Bool
  | Event.hookRun _ _ _ => true
  | _ => false

/-- `PipeContext` from `src/unnamed/part_002`: the per-run shared mutable
state.  The Go struct's `Option *Option` field is named `Opt` here only to
avoid clashing with Lean's `Option` type; `data` [the `map[string]any`
scratch map] is embedded as its lookup function; the mutex is omitted (the
orchestrator is single-threaded) and the `stats` pointer is carried by the
orchestrator itself. -/
structure PipeContext (O P R V : Type) where
  Name : String
  Opt : O
  Payload : P
  Result : R
  data : String → Option V
  abort : Bool

/-- `PipeContext.Abort`: sets the abort flag. -/
def PipeContext.Abort (c : PipeContext O P R V) : PipeContext O P R V :=
  { c with abort := true }

/-- `PipeContext.IsAborted`: reads the abort flag. -/
def PipeContext.IsAborted (c : PipeContext O P R V) : Bool := c.abort

/-- `PipeContext.Set`: stores a value in the scratch map. -/
def PipeContext.Set (c : PipeContext O P R V) (key : String) (v : V) :
    PipeContext O P R V :=
  { c with data := fun k => if k = key then some v else c.data k }

/-- `PipeContext.Get`: the Go two-value map read `val, ok := p.data[key]`;
`val` is nil (`none`) exactly when the key is absent. -/
def PipeContext.Get (c : PipeContext O P R V) (key : String) :
    Option V × Bool :=
  match c.data key with
  | some v => (some v, true)
  | none => (none, false)

/-- Result of `MustGet`: either the stored value or a panic with the given
message. -/
inductive MustGetOut (V : Type) where
  | val (v : V)
  | panicked (msg : String)
  deriving DecidableEq, Repr

/-- `PipeContext.MustGet`: returns the stored value, and panics with
`"key not found: " ++ key` when the key is absent. -/
def PipeContext.MustGet (c : PipeContext O P R V) (key : String) :
    MustGetOut V :=
  match c.data key with
  | some v => MustGetOut.val v
  | none => MustGetOut.panicked ("key not found: " ++ key)

/-- `HookHandler` from `src/hook.go`, as a state-passing function on the
shared context (the opaque ambient `ctx` argument is omitted). -/
abbrev HookHandler (O P R V ε : Type) :=
  PipeContext O P R V → PipeContext O P R V × Outcome ε

/-- `Middleware` from `src/middleware.go`: wraps a handler into a handler. -/
abbrev Middleware (O P R V ε : Type) :=
  HookHandler O P R V ε → HookHandler O P R V ε

/-- `applyMiddlewares` from `src/middleware.go`: the loop
`for i := len(middlewares) - 1; i >= 0; i-- { handler = middlewares[i](handler) }`,
i.e. a right fold wrapping the handler from the last middleware inward. -/
def applyMiddlewares (handler : HookHandler O P R V ε)
    (middlewares : List (Middleware O P R V ε)) : HookHandler O P R V ε :=
  middlewares.foldr (fun m h => m h) handler

/-- `Hook` from `src/hook.go`.  `Timeout` is the stored `time.Duration`
(nanoseconds). -/
structure Hook (O P R V ε : Type) where
  Name : String
  Description : String
  Handler : HookHandler O P R V ε
  Timeout : Nat
  SkipOnError : Bool

/-- `NewHook` from `src/hook.go`: a builder holding a hook with only the
handler set (the builder struct is just a wrapper around the hook being
built, so it is identified with the hook itself). -/
def NewHook (handler : HookHandler O P R V ε) : Hook O P R V ε :=
  { Name := "", Description := "", Handler := handler, Timeout := 0,
    SkipOnError := false }

/-- `HookBuilder.WithName`. -/
def Hook.WithName (h : Hook O P R V ε) (name : String) : Hook O P R V ε :=
  { h with Name := name }

/-- `HookBuilder.WithTimeout`. -/
def Hook.WithTimeout (h : Hook O P R V ε) (timeout : Nat) : Hook O P R V ε :=
  { h with Timeout := timeout }

/-- `HookBuilder.SkipOnError` (the fluent setter, which sets the flag). -/
def Hook.SetSkipOnError (h : Hook O P R V ε) : Hook O P R V ε :=
  { h with SkipOnError := true }

/-- `HookStat` from `src/stats.go` (wall-clock fields omitted, see header). -/
structure HookStat (ε : Type) where
  Name : String
  Index : Nat
  Error : Option ε
  deriving DecidableEq, Repr

/-- `ExecutionStats` from `src/stats.go` (wall-clock fields omitted). -/
structure ExecutionStats (ε : Type) where
  PipelineName : String
  HookStats : List (HookStat ε)
  Success : Bool
  Error : Option (PipeError ε)
  deriving DecidableEq, Repr

/-- `(*ExecutionStats).AddHookStat`: appends one per-hook record. -/
def ExecutionStats.AddHookStat (s : ExecutionStats ε) (stat : HookStat ε) :
    ExecutionStats ε :=
  { s with HookStats := s.HookStats ++ [stat] }

/-- `(*ExecutionStats).MarkEnd`: finalizes the run record
(`Success = err == nil`, `Error = err`).  In `Execute` the argument is the
final error, which is nil or a `*PipeError`. -/
def ExecutionStats.MarkEnd (s : ExecutionStats ε)
    (err : Option (PipeError ε)) : ExecutionStats ε :=
  { s with Success := err.isNone, Error := err }

/-- `NewExecutionStats`. -/
def NewExecutionStats (pipelineName : String) : ExecutionStats ε :=
  { PipelineName := pipelineName, HookStats := [], Success := false,
    Error := none }

/-- `Pipeline` from `src/unnamed/part_003`.  `onError` keeps the number of
registered `onError` callbacks: those callbacks receive only
`(ctx, hookName, err)` and cannot reach the `PipeContext`, so their own
side effects are outside the model and each invocation is recorded as an
`Event.onErrorCb` instead. -/
structure Pipeline (O P R V ε : Type) where
  Name : String
  option : O
  hooks : List (Hook O P R V ε)
  middlewares : List (Middleware O P R V ε)
  beforeExecute : List (PipeContext O P R V → PipeContext O P R V)
  afterExecute : List (PipeContext O P R V → Option (PipeError ε) → PipeContext O P R V)
  onError : Nat

/-- `NewPipeline`: applies the option configurators in order to a
zero-valued (`new(Option)`) configuration. -/
def NewPipeline [Inhabited O] (name : String) (opts : List (O → O)) :
    Pipeline O P R V ε :=
  { Name := name, option := opts.foldl (fun o f => f o) default, hooks := [],
    middlewares := [], beforeExecute := [], afterExecute := [], onError := 0 }

/-- `(*Pipeline).AddNamedHook`. -/
def Pipeline.AddNamedHook (p : Pipeline O P R V ε) (name : String)
    (handler : HookHandler O P R V ε) : Pipeline O P R V ε :=
  let hook : Hook O P R V ε :=
    { Name := name, Description := "", Handler := handler, Timeout := 0,
      SkipOnError := false }
  { p with hooks := p.hooks ++ [hook] }

/-- `(*Pipeline).AddHookWithOptions`. -/
def Pipeline.AddHookWithOptions (p : Pipeline O P R V ε)
    (hook : Hook O P R V ε) : Pipeline O P R V ε :=
  { p with hooks := p.hooks ++ [hook] }

/-- `(*Pipeline).Use`. -/
def Pipeline.Use (p : Pipeline O P R V ε)
    (mids : List (Middleware O P R V ε)) : Pipeline O P R V ε :=
  { p with middlewares := p.middlewares ++ mids }

/-- The handler actually invoked by `Execute` for one hook:
`handler := hook.Handler; if len(p.middlewares) > 0 { handler = applyMiddlewares(handler, p.middlewares) }`. -/
def effectiveHandler (mids : List (Middleware O P R V ε))
    (hook : Hook O P R V ε) : HookHandler O P R V ε :=
  if 0 < mids.length then applyMiddlewares hook.Handler mids
  else hook.Handler

/-- Result of the hook loop inside `Execute`: either the loop finished
(normally, by abort, or by an unskippable failure carried as `finalErr`), or
a hook invocation panicked and the panic is unwinding out of `Execute`
(in Go nothing after the loop runs in that case: no stat for the panicking
hook, no `MarkEnd`, no `afterExecute` callbacks). -/
inductive LoopOut (O P R V ε : Type) where
  | done (c : PipeContext O P R V) (stats : ExecutionStats ε)
      (tr : List (Event ε)) (finalErr : Option (PipeError ε))
  | panicked (msg : String) (stats : ExecutionStats ε) (tr : List (Event ε))

/-- The `for i, hook := range p.hooks` loop of `Execute`
(`src/unnamed/part_003`): check the abort flag, invoke the
middleware-wrapped handler, append the per-hook stat, fire `onError`
callbacks on failure, and continue or break according to `SkipOnError`. -/
def execLoop (pName : String) (mids : List (Middleware O P R V ε))
    (nErr : Nat) :
    Nat → List (Hook O P R V ε) → PipeContext O P R V → ExecutionStats ε →
    List (Event ε) → LoopOut O P R V ε
  | _, [], c, stats, tr => LoopOut.done c stats tr none
  | i, hook :: rest, c, stats, tr =>
    if c.IsAborted then LoopOut.done c stats tr none
    else
      match effectiveHandler mids hook c with
      | (_, Outcome.panicked msg) => LoopOut.panicked msg stats tr
      | (c', Outcome.ok) =>
          execLoop pName mids nErr (i + 1) rest c'
            (stats.AddHookStat { Name := hook.Name, Index := i, Error := none })
            (tr ++ [Event.hookRun i hook.Name none])
      | (c', Outcome.err e) =>
          let stats' := stats.AddHookStat
            { Name := hook.Name, Index := i, Error := some e }
          let tr' := tr ++ [Event.hookRun i hook.Name (some e)]
            ++ (List.range nErr).map (fun cb => Event.onErrorCb cb hook.Name e)
          if hook.SkipOnError then
            execLoop pName mids nErr (i + 1) rest c' stats' tr'
          else
            LoopOut.done c' stats' tr' (some (newPipeError pName hook.Name i e))

/-- The `for _, fn := range p.beforeExecute` loop: each callback may mutate
the context; its invocation is recorded in the trace. -/
def runBefore :
    List (PipeContext O P R V → PipeContext O P R V) → Nat →
    PipeContext O P R V → List (Event ε) →
    PipeContext O P R V × List (Event ε)
  | [], _, c, tr => (c, tr)
  | f :: rest, i, c, tr => runBefore rest (i + 1) (f c) (tr ++ [Event.beforeCb i])

/-- The `for _, fn := range p.afterExecute` loop. -/
def runAfter :
    List (PipeContext O P R V → Option (PipeError ε) → PipeContext O P R V) →
    Nat → Option (PipeError ε) → PipeContext O P R V → List (Event ε) →
    PipeContext O P R V × List (Event ε)
  | [], _, _, c, tr => (c, tr)
  | f :: rest, i, fe, c, tr =>
      runAfter rest (i + 1) fe (f c fe) (tr ++ [Event.afterCb i fe])

/-- What a caller of `Execute` can observe: the returned
`(result, error)` pair together with the stats object and the callback /
hook-invocation trace, or a panic propagating out of `Execute`. -/
inductive ExecOutcome (R ε : Type) where
  | returned (result : Option R) (error : Option (PipeError ε))
      (stats : ExecutionStats ε) (trace : List (Event ε))
  | panicked (msg : String) (stats : ExecutionStats ε)
      (trace : List (Event ε))
  deriving DecidableEq, Repr

/-- The stats accumulated when `Execute` ended (normally or by panic). -/
def ExecOutcome.statsOf : ExecOutcome R ε → ExecutionStats ε
  | ExecOutcome.returned _ _ st _ => st
  | ExecOutcome.panicked _ st _ => st

/-- The event trace of the run. -/
def ExecOutcome.traceOf : ExecOutcome R ε → List (Event ε)
  | ExecOutcome.returned _ _ _ tr => tr
  | ExecOutcome.panicked _ _ tr => tr

/-- The terminal error `Execute` returned (`none` also when `Execute`
panicked, since a panicking `Execute` returns nothing at all). -/
def ExecOutcome.errorOf : ExecOutcome R ε → Option (PipeError ε)
  | ExecOutcome.returned _ e _ _ => e
  | ExecOutcome.panicked _ _ _ => none

/-- The result value `Execute` returned. -/
def ExecOutcome.resultOf : ExecOutcome R ε → Option R
  | ExecOutcome.returned r _ _ _ => r
  | ExecOutcome.panicked _ _ _ => none

/-- The fresh `PipeContext` built at the top of `Execute`: name, option
snapshot, the caller's payload, a zero-valued result, an empty scratch map,
abort unset. -/
def Pipeline.initCtx [Inhabited R] (p : Pipeline O P R V ε) (payload : P) :
    PipeContext O P R V :=
  { Name := p.Name, Opt := p.option, Payload := payload, Result := default,
    data := fun _ => none, abort := false }

/-- `(*Pipeline).Execute` from `src/unnamed/part_003`: build the context and
stats, run `beforeExecute` callbacks, run the hook loop, finalize stats with
`MarkEnd(finalErr)`, run `afterExecute` callbacks with the final error, and
return `(nil, finalErr)` on failure or `(pipeCtx.Result, nil)` on success.
A panic escaping a hook invocation unwinds out of `Execute` before any of
the tail lifecycle runs. -/
def Pipeline.Execute [Inhabited R] (p : Pipeline O P R V ε) (payload : P) :
    ExecOutcome R ε :=
  let stats : ExecutionStats ε := NewExecutionStats p.Name
  let pr := runBefore p.beforeExecute 0 (p.initCtx payload) []
  match execLoop p.Name p.middlewares p.onError 0 p.hooks pr.1 stats pr.2 with
  | LoopOut.panicked msg st tr => ExecOutcome.panicked msg st tr
  | LoopOut.done c st tr finalErr =>
      let st' := st.MarkEnd finalErr
      let ar := runAfter p.afterExecute 0 finalErr c tr
      match finalErr with
      | some e => ExecOutcome.returned none (some e) st' ar.2
      | none => ExecOutcome.returned (some ar.1.Result) none st' ar.2

/-- `Recovery` from `src/middleware/recovery.go`: a deferred `recover`
swallows any panic from `next` and discards the value; because the panic is
recovered before the `return err` statement ran and the function's `error`
result is unnamed, the function returns the zero value nil.  On a normal
return it passes `next`'s result through. -/
def Recovery : Middleware O P R V ε := fun next c =>
  match next c with
  | (c', Outcome.panicked _) => (c', Outcome.ok)
  | r => r

/-- `RecoveryWithError` from `src/middleware/recovery.go`, as compiled: the
body is `var err error; defer { if r := recover(); r != nil { err = fmt.Errorf("panic recovered: %v", r) } }; err = next(ctx, pipeCtx); return err`.
The `error` result of the closure is UNNAMED, so when `next` panics the
deferred function's assignment goes to the dead local `err` and the
function returns the zero-valued result, i.e. nil — exactly like
`Recovery` (Go spec, "Handling panics" together with "Return statements":
after a recovered panic the function returns the current values of its
result parameters, and an unnamed result that no `return` statement ever
assigned is still zero-valued). -/
def RecoveryWithError : Middleware O P R V ε := fun next c =>
  match next c with
  | (c', Outcome.panicked _) => (c', Outcome.ok)
  | r => r

/-- Modelled from the spec: the behavior `RecoveryWithError`'s own doc
comment ("converts the panic into an error") and the spec's
"converted into a normal hook failure" describe — a recovered panic value
`r` becomes the returned error `fmt.Errorf("panic recovered: %v", r)`. -/
def RecoveryWithErrorSpec : Middleware O P R V GoError := fun next c =>
  match next c with
  | (c', Outcome.panicked msg) =>
      (c', Outcome.err (GoError.new ("panic recovered: " ++ msg)))
  | r => r

/-- Instrumented run of the `for i := 0; i <= maxRetries; i++` loop of
`RetryFunc` (`src/middleware/retry.go`), recursing on the number of
attempts still allowed after the current one (`remaining`;
`remaining = maxRetries - i`).  Besides the context and the final
loop outcome it returns the number of attempts made and the list of sleep
lengths, in order: after the failed attempt with 0-based index `i` and with
more attempts remaining, the loop sleeps `backoff * (i+1)`. -/
def retryRunFrom (next : HookHandler O P R V ε) (backoff : Nat) :
    Nat → Nat → PipeContext O P R V →
    PipeContext O P R V × Outcome ε × Nat × List Nat
  | _, 0, c =>
      let r := next c
      (r.1, r.2, 1, [])
  | i, remaining + 1, c =>
      let r := next c
      match r.2 with
      | Outcome.ok => (r.1, Outcome.ok, 1, [])
      | Outcome.panicked m => (r.1, Outcome.panicked m, 1, [])
      | Outcome.err _ =>
          let rest := retryRunFrom next backoff (i + 1) remaining r.1
          (rest.1, rest.2.1, rest.2.2.1 + 1, backoff * (i + 1) :: rest.2.2.2)

/-- `RetryFunc(maxRetries, backoff)` from `src/middleware/retry.go`: run the
attempt loop; on a first nil return stop at once and return nil; if every
attempt failed, return `fmt.Errorf("failed after %d retries: %w", maxRetries, err)`
wrapping the last attempt's error; a panic unwinds through the loop. -/
def RetryFunc (maxRetries backoff : Nat) : Middleware O P R V GoError :=
  fun next c =>
    let t := retryRunFrom next backoff 0 maxRetries c
    match t.2.1 with
    | Outcome.err e =>
        (t.1, Outcome.err (GoError.wrapf
          ("failed after " ++ toString maxRetries ++ " retries: ") e))
    | o => (t.1, o)

/-- `Retry` from `src/middleware/retry.go`: `RetryFunc(3, 100*time.Millisecond)`
(100ms = 100000000ns). -/
def Retry : Middleware O P R V GoError := RetryFunc 3 100000000

/-- `Logging` from `src/middleware/logging.go`: measures time around `next`
and passes the result through unchanged (the measurement is discarded). -/
def Logging : Middleware O P R V ε := fun next c => next c

/-! ## Helper lemmas about the orchestration loop -/

/-- Stats accumulated when the loop ended. -/
def LoopOut.statsOf : LoopOut O P R V ε → ExecutionStats ε
  | LoopOut.done _ st _ _ => st
  | LoopOut.panicked _ st _ => st

/-- Trace accumulated when the loop ended. -/
def LoopOut.traceOf : LoopOut O P R V ε → List (Event ε)
  | LoopOut.done _ _ tr _ => tr
  | LoopOut.panicked _ _ tr => tr

/-- The structured error the loop broke with, if any. -/
def LoopOut.finalErrOf : LoopOut O P R V ε → Option (PipeError ε)
  | LoopOut.done _ _ _ fe => fe
  | LoopOut.panicked _ _ _ => none

/-- The trace event recording the invocation a `HookStat` describes. -/
def statEvent (s : HookStat ε) : Event ε :=
  Event.hookRun s.Index s.Name s.Error

/-- On an already-aborted context the loop stops at once, leaving state,
stats and trace untouched and reporting no error. -/
theorem execLoop_of_aborted (pName : String)
    (mids : List (Middleware O P R V ε)) (nErr : Nat) (i : Nat)
    (hooks : List (Hook O P R V ε)) (c : PipeContext O P R V)
    (st : ExecutionStats ε) (tr : List (Event ε)) (h : c.abort = true) :
    execLoop pName mids nErr i hooks c st tr = LoopOut.done c st tr none := by
  cases hooks with
  | nil => rfl
  | cons hook rest => simp [execLoop, PipeContext.IsAborted, h]

/-- Decomposition of the hook loop over a split of the hook list: running
`A ++ B` is running `A` and, when `A` finished without breaking, running `B`
from the state `A` left, with the index advanced by `A.length`. -/
theorem execLoop_append (pName : String)
    (mids : List (Middleware O P R V ε)) (nErr : Nat)
    (A B : List (Hook O P R V ε)) :
    ∀ (i : Nat) (c : PipeContext O P R V) (st : ExecutionStats ε)
      (tr : List (Event ε)),
    execLoop pName mids nErr i (A ++ B) c st tr =
      match execLoop pName mids nErr i A c st tr with
      | LoopOut.done c' st' tr' none =>
          execLoop pName mids nErr (i + A.length) B c' st' tr'
      | out => out := by
  induction A with
  | nil => intro i c st tr; simp [execLoop]
  | cons hook A' ih =>
      intro i c st tr
      have happ : A'.append B = A' ++ B := rfl
      by_cases hab : c.abort = true
      · rw [execLoop_of_aborted pName mids nErr i (hook :: A' ++ B) c st tr hab,
          execLoop_of_aborted pName mids nErr i (hook :: A') c st tr hab]
        have hred := execLoop_of_aborted pName mids nErr (i + (A'.length + 1)) B c st tr hab
        simp [hred]
      · have hab' : c.IsAborted = false := by
          simpa [PipeContext.IsAborted] using hab
        rcases hh : effectiveHandler mids hook c with ⟨c', out⟩
        cases out with
        | panicked msg =>
            simp [execLoop, hab', hh]
        | ok =>
            simp only [List.cons_append, execLoop, hab', hh, Bool.false_eq_true,
              if_false]
            rw [happ, ih]
            have hidx : i + 1 + A'.length = i + (A'.length + 1) := by omega
            simp [hidx]
        | err e =>
            by_cases hskip : hook.SkipOnError = true
            · simp only [List.cons_append, execLoop, hab', hh, hskip,
                Bool.false_eq_true, if_false, if_true]
              rw [happ, ih]
              have hidx : i + 1 + A'.length = i + (A'.length + 1) := by omega
              simp [hidx]
            · simp [execLoop, hab', hh, hskip]

/-- The loop only ever appends to the event trace. -/
theorem execLoop_trace_extend (pName : String)
    (mids : List (Middleware O P R V ε)) (nErr : Nat)
    (hooks : List (Hook O P R V ε)) :
    ∀ (i : Nat) (c : PipeContext O P R V) (st : ExecutionStats ε)
      (tr : List (Event ε)),
    ∃ d, (execLoop pName mids nErr i hooks c st tr).traceOf = tr ++ d := by
  induction hooks with
  | nil => intro i c st tr; exact ⟨[], by simp [execLoop, LoopOut.traceOf]⟩
  | cons hook rest ih =>
      intro i c st tr
      by_cases hab : c.abort = true
      · rw [execLoop_of_aborted pName mids nErr i (hook :: rest) c st tr hab]
        exact ⟨[], by simp [LoopOut.traceOf]⟩
      · have hab' : c.IsAborted = false := by
          simpa [PipeContext.IsAborted] using hab
        rcases hh : effectiveHandler mids hook c with ⟨c', out⟩
        cases out with
        | panicked msg =>
            exact ⟨[], by simp [execLoop, hab', hh, LoopOut.traceOf]⟩
        | ok =>
            obtain ⟨d, hd⟩ := ih (i + 1) c'
              (st.AddHookStat { Name := hook.Name, Index := i, Error := none })
              (tr ++ [Event.hookRun i hook.Name none])
            refine ⟨Event.hookRun i hook.Name none :: d, ?_⟩
            simp only [execLoop, hab', Bool.false_eq_true, if_false, hh]
            rw [hd]
            simp
        | err e =>
            by_cases hskip : hook.SkipOnError = true
            · obtain ⟨d, hd⟩ := ih (i + 1) c'
                (st.AddHookStat { Name := hook.Name, Index := i, Error := some e })
                (tr ++ [Event.hookRun i hook.Name (some e)]
                  ++ (List.range nErr).map (fun cb => Event.onErrorCb cb hook.Name e))
              refine ⟨Event.hookRun i hook.Name (some e)
                :: (List.range nErr).map (fun cb => Event.onErrorCb cb hook.Name e) ++ d, ?_⟩
              simp only [execLoop, hab', Bool.false_eq_true, if_false, hh, hskip,
                if_true]
              rw [hd]
              simp
            · refine ⟨Event.hookRun i hook.Name (some e)
                :: (List.range nErr).map (fun cb => Event.onErrorCb cb hook.Name e), ?_⟩
              simp [execLoop, hab', hh, hskip, LoopOut.traceOf]

/-- The loop only ever appends to the per-hook stats list. -/
theorem execLoop_stats_extend (pName : String)
    (mids : List (Middleware O P R V ε)) (nErr : Nat)
    (hooks : List (Hook O P R V ε)) :
    ∀ (i : Nat) (c : PipeContext O P R V) (st : ExecutionStats ε)
      (tr : List (Event ε)),
    ∃ d, (execLoop pName mids nErr i hooks c st tr).statsOf.HookStats
      = st.HookStats ++ d := by
  induction hooks with
  | nil => intro i c st tr; exact ⟨[], by simp [execLoop, LoopOut.statsOf]⟩
  | cons hook rest ih =>
      intro i c st tr
      by_cases hab : c.abort = true
      · rw [execLoop_of_aborted pName mids nErr i (hook :: rest) c st tr hab]
        exact ⟨[], by simp [LoopOut.statsOf]⟩
      · have hab' : c.IsAborted = false := by
          simpa [PipeContext.IsAborted] using hab
        rcases hh : effectiveHandler mids hook c with ⟨c', out⟩
        cases out with
        | panicked msg =>
            exact ⟨[], by simp [execLoop, hab', hh, LoopOut.statsOf]⟩
        | ok =>
            obtain ⟨d, hd⟩ := ih (i + 1) c'
              (st.AddHookStat { Name := hook.Name, Index := i, Error := none })
              (tr ++ [Event.hookRun i hook.Name none])
            refine ⟨{ Name := hook.Name, Index := i, Error := none } :: d, ?_⟩
            simp only [execLoop, hab', Bool.false_eq_true, if_false, hh]
            rw [hd]
            simp [ExecutionStats.AddHookStat]
        | err e =>
            by_cases hskip : hook.SkipOnError = true
            · obtain ⟨d, hd⟩ := ih (i + 1) c'
                (st.AddHookStat { Name := hook.Name, Index := i, Error := some e })
                (tr ++ [Event.hookRun i hook.Name (some e)]
                  ++ (List.range nErr).map (fun cb => Event.onErrorCb cb hook.Name e))
              refine ⟨{ Name := hook.Name, Index := i, Error := some e } :: d, ?_⟩
              simp only [execLoop, hab', Bool.false_eq_true, if_false, hh, hskip,
                if_true]
              rw [hd]
              simp [ExecutionStats.AddHookStat]
            · refine ⟨[{ Name := hook.Name, Index := i, Error := some e }], ?_⟩
              simp [execLoop, hab', hh, hskip, LoopOut.statsOf,
                ExecutionStats.AddHookStat]


/-- Every completed-hook event the loop adds to the trace concerns a hook
index in `[i, i + hooks.length)`. -/
theorem execLoop_hookRun_bound (pName : String)
    (mids : List (Middleware O P R V ε)) (nErr : Nat)
    (hooks : List (Hook O P R V ε)) :
    ∀ (i : Nat) (c : PipeContext O P R V) (st : ExecutionStats ε)
      (tr : List (Event ε)) (j : Nat) (nm : String) (oe : Option ε),
    Event.hookRun j nm oe ∈ (execLoop pName mids nErr i hooks c st tr).traceOf →
    Event.hookRun j nm oe ∈ tr ∨ (i ≤ j ∧ j < i + hooks.length) := by
  induction hooks with
  | nil =>
      intro i c st tr j nm oe hmem
      simp only [execLoop, LoopOut.traceOf] at hmem
      exact Or.inl hmem
  | cons hook rest ih =>
      intro i c st tr j nm oe hmem
      have hlen : (hook :: rest).length = rest.length + 1 := by simp
      by_cases hab : c.abort = true
      · rw [execLoop_of_aborted pName mids nErr i (hook :: rest) c st tr hab] at hmem
        exact Or.inl hmem
      · have hab' : c.IsAborted = false := by
          simpa [PipeContext.IsAborted] using hab
        rcases hh : effectiveHandler mids hook c with ⟨c', out⟩
        cases out with
        | panicked msg =>
            simp only [execLoop, hab', Bool.false_eq_true, if_false, hh,
              LoopOut.traceOf] at hmem
            exact Or.inl hmem
        | ok =>
            simp only [execLoop, hab', Bool.false_eq_true, if_false, hh] at hmem
            rcases ih (i + 1) c' _ _ j nm oe hmem with hin | hbnd
            · rcases List.mem_append.mp hin with hin' | hev
              · exact Or.inl hin'
              · simp only [List.mem_singleton, Event.hookRun.injEq] at hev
                obtain ⟨hj, hnm, hoe⟩ := hev
                exact Or.inr ⟨by omega, by omega⟩
            · exact Or.inr ⟨by omega, by omega⟩
        | err e =>
            by_cases hskip : hook.SkipOnError = true
            · simp only [execLoop, hab', Bool.false_eq_true, if_false, hh, hskip,
                if_true] at hmem
              rcases ih (i + 1) c' _ _ j nm oe hmem with hin | hbnd
              · rcases List.mem_append.mp hin with hin' | hev
                · rcases List.mem_append.mp hin' with hin'' | hev'
                  · exact Or.inl hin''
                  · simp only [List.mem_singleton, Event.hookRun.injEq] at hev'
                    obtain ⟨hj, hnm, hoe⟩ := hev'
                    exact Or.inr ⟨by omega, by omega⟩
                · rcases List.mem_map.mp hev with ⟨cb, _, habs⟩
                  exact absurd habs (by simp)
              · exact Or.inr ⟨by omega, by omega⟩
            · simp only [execLoop, hab', Bool.false_eq_true, if_false, hh, hskip,
                LoopOut.traceOf] at hmem
              rcases List.mem_append.mp hmem with hin' | hev
              · rcases List.mem_append.mp hin' with hin'' | hev'
                · exact Or.inl hin''
                · simp only [List.mem_singleton, Event.hookRun.injEq] at hev'
                  obtain ⟨hj, hnm, hoe⟩ := hev'
                  exact Or.inr ⟨by omega, by omega⟩
              · rcases List.mem_map.mp hev with ⟨cb, _, habs⟩
                exact absurd habs (by simp)

/-- When the loop breaks with a structured error, the failing hook's
recorded index is at least the loop's starting index. -/
theorem execLoop_finalErr_ge (pName : String)
    (mids : List (Middleware O P R V ε)) (nErr : Nat)
    (hooks : List (Hook O P R V ε)) :
    ∀ (i : Nat) (c : PipeContext O P R V) (st : ExecutionStats ε)
      (tr : List (Event ε)) (pe : PipeError ε),
    (execLoop pName mids nErr i hooks c st tr).finalErrOf = some pe →
    i ≤ pe.HookIndex := by
  induction hooks with
  | nil =>
      intro i c st tr pe hpe
      simp [execLoop, LoopOut.finalErrOf] at hpe
  | cons hook rest ih =>
      intro i c st tr pe hpe
      by_cases hab : c.abort = true
      · rw [execLoop_of_aborted pName mids nErr i (hook :: rest) c st tr hab] at hpe
        simp [LoopOut.finalErrOf] at hpe
      · have hab' : c.IsAborted = false := by
          simpa [PipeContext.IsAborted] using hab
        rcases hh : effectiveHandler mids hook c with ⟨c', out⟩
        cases out with
        | panicked msg =>
            simp [execLoop, hab', hh, LoopOut.finalErrOf] at hpe
        | ok =>
            simp only [execLoop, hab', Bool.false_eq_true, if_false, hh] at hpe
            have := ih (i + 1) c' _ _ pe hpe
            omega
        | err e =>
            by_cases hskip : hook.SkipOnError = true
            · simp only [execLoop, hab', Bool.false_eq_true, if_false, hh, hskip,
                if_true] at hpe
              have := ih (i + 1) c' _ _ pe hpe
              omega
            · simp only [execLoop, hab', Bool.false_eq_true, if_false, hh, hskip,
                LoopOut.finalErrOf, Option.some.injEq] at hpe
              rw [← hpe]
              simp [newPipeError]

/-- Decomposition of the stats the loop produced on a normal finish: the
input records are kept unchanged and every appended record `k` describes
hook `i + k`, carrying that hook's registered name. -/
theorem execLoop_stats_decomp (pName : String)
    (mids : List (Middleware O P R V ε)) (nErr : Nat)
    (hooks : List (Hook O P R V ε)) :
    ∀ (i : Nat) (c : PipeContext O P R V) (st : ExecutionStats ε)
      (tr : List (Event ε)) (c' : PipeContext O P R V)
      (st' : ExecutionStats ε) (tr' : List (Event ε))
      (fe : Option (PipeError ε)),
    execLoop pName mids nErr i hooks c st tr = LoopOut.done c' st' tr' fe →
    ∃ ns, st'.HookStats = st.HookStats ++ ns ∧
      ∀ k s, ns[k]? = some s →
        s.Index = i + k ∧ ∃ h, hooks[k]? = some h ∧ s.Name = h.Name := by
  induction hooks with
  | nil =>
      intro i c st tr c' st' tr' fe heq
      simp only [execLoop, LoopOut.done.injEq] at heq
      refine ⟨[], ?_, ?_⟩
      · rw [← heq.2.1]; simp
      · intro k s hk; simp at hk
  | cons hook rest ih =>
      intro i c st tr c' st' tr' fe heq
      by_cases hab : c.abort = true
      · rw [execLoop_of_aborted pName mids nErr i (hook :: rest) c st tr hab] at heq
        simp only [LoopOut.done.injEq] at heq
        refine ⟨[], ?_, ?_⟩
        · rw [← heq.2.1]; simp
        · intro k s hk; simp at hk
      · have hab' : c.IsAborted = false := by
          simpa [PipeContext.IsAborted] using hab
        rcases hh : effectiveHandler mids hook c with ⟨c', out⟩
        cases out with
        | panicked msg =>
            simp [execLoop, hab', hh] at heq
        | ok =>
            simp only [execLoop, hab', Bool.false_eq_true, if_false, hh] at heq
            obtain ⟨ns, hns, hprop⟩ := ih (i + 1) _ _ _ _ _ _ _ heq
            refine ⟨{ Name := hook.Name, Index := i, Error := none } :: ns, ?_, ?_⟩
            · rw [hns]; simp [ExecutionStats.AddHookStat]
            · intro k s hk
              cases k with
              | zero =>
                  simp only [List.getElem?_cons_zero, Option.some.injEq] at hk
                  refine ⟨by rw [← hk]; simp, hook, by simp, by rw [← hk]⟩
              | succ k' =>
                  simp only [List.getElem?_cons_succ] at hk
                  obtain ⟨hidx, h2, hh2, hnm⟩ := hprop k' s hk
                  exact ⟨by omega, h2, by simpa using hh2, hnm⟩
        | err e =>
            by_cases hskip : hook.SkipOnError = true
            · simp only [execLoop, hab', Bool.false_eq_true, if_false, hh, hskip,
                if_true] at heq
              obtain ⟨ns, hns, hprop⟩ := ih (i + 1) _ _ _ _ _ _ _ heq
              refine ⟨{ Name := hook.Name, Index := i, Error := some e } :: ns, ?_, ?_⟩
              · rw [hns]; simp [ExecutionStats.AddHookStat]
              · intro k s hk
                cases k with
                | zero =>
                    simp only [List.getElem?_cons_zero, Option.some.injEq] at hk
                    refine ⟨by rw [← hk]; simp, hook, by simp, by rw [← hk]⟩
                | succ k' =>
                    simp only [List.getElem?_cons_succ] at hk
                    obtain ⟨hidx, h2, hh2, hnm⟩ := hprop k' s hk
                    exact ⟨by omega, h2, by simpa using hh2, hnm⟩
            · simp only [execLoop, hab', Bool.false_eq_true, if_false, hh, hskip,
                LoopOut.done.injEq] at heq
              refine ⟨[{ Name := hook.Name, Index := i, Error := some e }], ?_, ?_⟩
              · rw [← heq.2.1]; simp [ExecutionStats.AddHookStat]
              · intro k s hk
                cases k with
                | zero =>
                    simp only [List.getElem?_cons_zero, Option.some.injEq] at hk
                    refine ⟨by rw [← hk]; simp, hook, by simp, by rw [← hk]⟩
                | succ k' => simp at hk

/-- The loop preserves the correspondence between the stats list and the
completed-hook events of the trace: each recorded `HookStat` is exactly one
`hookRun` event (same index, name and returned error), in the same order. -/
theorem execLoop_statsEvents (pName : String)
    (mids : List (Middleware O P R V ε)) (nErr : Nat)
    (hooks : List (Hook O P R V ε)) :
    ∀ (i : Nat) (c : PipeContext O P R V) (st : ExecutionStats ε)
      (tr : List (Event ε)) (c' : PipeContext O P R V)
      (st' : ExecutionStats ε) (tr' : List (Event ε))
      (fe : Option (PipeError ε)),
    execLoop pName mids nErr i hooks c st tr = LoopOut.done c' st' tr' fe →
    st.HookStats.map statEvent = tr.filter Event.isHookRun →
    st'.HookStats.map statEvent = tr'.filter Event.isHookRun := by
  induction hooks with
  | nil =>
      intro i c st tr c' st' tr' fe heq hinv
      simp only [execLoop, LoopOut.done.injEq] at heq
      rw [← heq.2.1, ← heq.2.2.1]
      exact hinv
  | cons hook rest ih =>
      intro i c st tr c' st' tr' fe heq hinv
      by_cases hab : c.abort = true
      · rw [execLoop_of_aborted pName mids nErr i (hook :: rest) c st tr hab] at heq
        simp only [LoopOut.done.injEq] at heq
        rw [← heq.2.1, ← heq.2.2.1]
        exact hinv
      · have hab' : c.IsAborted = false := by
          simpa [PipeContext.IsAborted] using hab
        rcases hh : effectiveHandler mids hook c with ⟨c', out⟩
        cases out with
        | panicked msg =>
            simp [execLoop, hab', hh] at heq
        | ok =>
            simp only [execLoop, hab', Bool.false_eq_true, if_false, hh] at heq
            refine ih (i + 1) _ _ _ _ _ _ _ heq ?_
            simp [ExecutionStats.AddHookStat, statEvent, List.filter_append,
              hinv, Event.isHookRun]
        | err e =>
            by_cases hskip : hook.SkipOnError = true
            · simp only [execLoop, hab', Bool.false_eq_true, if_false, hh, hskip,
                if_true] at heq
              refine ih (i + 1) _ _ _ _ _ _ _ heq ?_
              have hcb : ((List.range nErr).map
                  (fun cb => Event.onErrorCb cb hook.Name e)).filter
                    Event.isHookRun = [] := by
                simp [List.filter_eq_nil_iff, Event.isHookRun]
              simp [ExecutionStats.AddHookStat, statEvent, List.filter_append,
                hinv, Event.isHookRun, hcb]
            · simp only [execLoop, hab', Bool.false_eq_true, if_false, hh, hskip,
                LoopOut.done.injEq] at heq
              rw [← heq.2.1, ← heq.2.2.1]
              have hcb : ((List.range nErr).map
                  (fun cb => Event.onErrorCb cb hook.Name e)).filter
                    Event.isHookRun = [] := by
                simp [List.filter_eq_nil_iff, Event.isHookRun]
              simp [ExecutionStats.AddHookStat, statEvent, List.filter_append,
                hinv, Event.isHookRun, hcb]

/-- `runBefore` forwards the context through the callbacks and appends one
`beforeCb` event per callback, in registration order. -/
theorem runBefore_snd (cbs : List (PipeContext O P R V → PipeContext O P R V)) :
    ∀ (i : Nat) (c : PipeContext O P R V) (tr : List (Event ε)),
    (runBefore cbs i c tr).2 =
      tr ++ (List.range' i cbs.length).map Event.beforeCb := by
  induction cbs with
  | nil => intro i c tr; simp [runBefore]
  | cons f rest ih =>
      intro i c tr
      rw [runBefore, ih (i + 1) (f c) (tr ++ [Event.beforeCb i])]
      simp [List.range'_succ]

/-- `runAfter` appends one `afterCb` event per callback, in registration
order, each carrying the final error. -/
theorem runAfter_snd
    (cbs : List (PipeContext O P R V → Option (PipeError ε) → PipeContext O P R V)) :
    ∀ (i : Nat) (fe : Option (PipeError ε)) (c : PipeContext O P R V)
      (tr : List (Event ε)),
    (runAfter cbs i fe c tr).2 =
      tr ++ (List.range' i cbs.length).map (fun j => Event.afterCb j fe) := by
  induction cbs with
  | nil => intro i fe c tr; simp [runAfter]
  | cons f rest ih =>
      intro i fe c tr
      rw [runAfter, ih (i + 1) fe (f c fe) (tr ++ [Event.afterCb i fe])]
      simp [List.range'_succ]

/-! ## Claim theorems -/

/-- C7: `applyMiddlewares(h, list)` folds the list from index `len-1` down
to 0, so `applyMiddlewares h (m :: ms) = m (applyMiddlewares h ms)` and the
first-registered middleware is the outermost wrapper (concretely,
`applyMiddlewares h [m0, m1, m2] = m0 (m1 (m2 h))`); the empty list leaves
the handler unchanged, and with zero registered middleware the
orchestrator's per-hook handler is the hook's own handler, unwrapped. -/
theorem claim_C7 :
    (∀ (h : HookHandler O P R V ε) (m : Middleware O P R V ε)
        (ms : List (Middleware O P R V ε)),
      applyMiddlewares h (m :: ms) = m (applyMiddlewares h ms))
    ∧ (∀ h : HookHandler O P R V ε, applyMiddlewares h [] = h)
    ∧ (∀ (h : HookHandler O P R V ε) (m0 m1 m2 : Middleware O P R V ε),
      applyMiddlewares h [m0, m1, m2] = m0 (m1 (m2 h)))
    ∧ (∀ hook : Hook O P R V ε, effectiveHandler [] hook = hook.Handler) := by
  refine ⟨fun h m ms => rfl, fun h => rfl, fun h m0 m1 m2 => rfl,
    fun hook => ?_⟩
  simp [effectiveHandler]

/-- Positional reassignment of every hook's `Timeout` field (via the
builder's `WithTimeout`, which writes the field directly): hook `j` gets
timeout `ts j`. -/
def setTimeouts (ts : Nat → Nat) :
    List (Hook O P R V ε) → List (Hook O P R V ε)
  | [] => []
  | h :: rest => Hook.WithTimeout h (ts 0) :: setTimeouts (fun j => ts (j + 1)) rest

/-- The hook loop never reads `Timeout`: reassigning every timeout leaves
the loop's behavior unchanged. -/
theorem execLoop_setTimeouts (pName : String)
    (mids : List (Middleware O P R V ε)) (nErr : Nat)
    (hooks : List (Hook O P R V ε)) :
    ∀ (ts : Nat → Nat) (i : Nat) (c : PipeContext O P R V)
      (st : ExecutionStats ε) (tr : List (Event ε)),
    execLoop pName mids nErr i (setTimeouts ts hooks) c st tr
      = execLoop pName mids nErr i hooks c st tr := by
  induction hooks with
  | nil => intro ts i c st tr; rfl
  | cons hook rest ih =>
      intro ts i c st tr
      by_cases hab : c.abort = true
      · rw [execLoop_of_aborted pName mids nErr i
            (setTimeouts ts (hook :: rest)) c st tr hab,
          execLoop_of_aborted pName mids nErr i (hook :: rest) c st tr hab]
      · have hab' : c.IsAborted = false := by
          simpa [PipeContext.IsAborted] using hab
        have hnm : (Hook.WithTimeout hook (ts 0)).Name = hook.Name := rfl
        have hsk : (Hook.WithTimeout hook (ts 0)).SkipOnError
            = hook.SkipOnError := rfl
        rcases hh : effectiveHandler mids hook c with ⟨c', out⟩
        have hh2 : effectiveHandler mids (Hook.WithTimeout hook (ts 0)) c
            = (c', out) := hh
        cases out with
        | panicked msg =>
            simp [setTimeouts, execLoop, hab', hh, hh2]
        | ok =>
            simp only [setTimeouts, execLoop, hab', Bool.false_eq_true,
              if_false, hh, hh2, hnm, hsk]
            exact ih _ _ _ _ _
        | err e =>
            simp only [setTimeouts, execLoop, hab', Bool.false_eq_true,
              if_false, hh, hh2, hnm, hsk]
            by_cases hskip : hook.SkipOnError = true
            · simp only [hskip, if_true]
              exact ih _ _ _ _ _
            · simp only [hskip, Bool.false_eq_true, if_false]

/-- C10: the orchestrator never reads the per-hook `Timeout` field — two
`Execute` runs of pipelines identical except for the `Timeout` values of
their hooks (written directly or via the builder's `WithTimeout`) produce
the same returned result, the same error, the same stats and the same
sequence of hook invocations and callback events. -/
theorem claim_C10 [Inhabited R] (p : Pipeline O P R V ε) (ts : Nat → Nat)
    (payload : P) :
    Pipeline.Execute { p with hooks := setTimeouts ts p.hooks } payload
      = p.Execute payload := by
  show (match execLoop p.Name p.middlewares p.onError 0 (setTimeouts ts p.hooks)
      (runBefore p.beforeExecute 0 (p.initCtx payload) []).1
      (NewExecutionStats p.Name)
      (runBefore p.beforeExecute 0 (p.initCtx payload) []).2 with
    | LoopOut.panicked msg st tr => ExecOutcome.panicked msg st tr
    | LoopOut.done c st tr finalErr =>
        match finalErr with
        | some e => ExecOutcome.returned none (some e) (st.MarkEnd finalErr)
            (runAfter p.afterExecute 0 finalErr c tr).2
        | none => ExecOutcome.returned
            (some (runAfter p.afterExecute 0 finalErr c tr).1.Result) none
            (st.MarkEnd finalErr) (runAfter p.afterExecute 0 finalErr c tr).2)
    = p.Execute payload
  rw [execLoop_setTimeouts]
  rfl

/-- A handler that panics with value `"boom"` (concrete instance used to
evaluate the recovery middleware variants). -/
def panicHandlerC1 : HookHandler Unit Unit Unit Unit GoError :=
  fun c => (c, Outcome.panicked "boom")

/-- A concrete execution context. -/
def ctxC1 : PipeContext Unit Unit Unit Unit :=
  { Name := "c1", Opt := (), Payload := (), Result := (),
    data := fun _ => none, abort := false }

/-- C1 (evaluation of the code at the failing input): wrapping a panicking
handler with `RecoveryWithError` and invoking it returns nil (`ok`) — not
the non-nil "panic recovered: boom" error its own documentation and the
spec promise, because the closure's deferred `recover` assigns a local
`err` that never reaches the UNNAMED `error` result.  `Recovery` also
returns nil, as specified.  In neither case does the panic propagate (the
outcome is not `panicked`).  The third conjunct evaluates the
spec-documented behavior (`RecoveryWithErrorSpec`) at the same input,
exhibiting the divergence. -/
theorem claim_C1 :
    RecoveryWithError panicHandlerC1 ctxC1 = (ctxC1, Outcome.ok)
    ∧ Recovery panicHandlerC1 ctxC1 = (ctxC1, Outcome.ok)
    ∧ RecoveryWithErrorSpec panicHandlerC1 ctxC1
        = (ctxC1, Outcome.err (GoError.new "panic recovered: boom")) :=
  ⟨rfl, rfl, rfl⟩

/-- When every attempt fails, the retry loop started at attempt index `i`
with `remaining` further attempts allowed makes `remaining + 1` attempts,
sleeps `backoff * a` for each attempt number `a` in `i+1, …, i+remaining`
(none after the last attempt), and ends with the last attempt's error. -/
theorem retryRunFrom_allFail (next : HookHandler O P R V GoError)
    (backoff : Nat) (hfail : ∀ d, ∃ e, (next d).2 = Outcome.err e) :
    ∀ (remaining i : Nat) (c : PipeContext O P R V),
    ∃ c'' e, retryRunFrom next backoff i remaining c
      = (c'', Outcome.err e, remaining + 1,
          (List.range' (i + 1) remaining).map (fun a => backoff * a)) := by
  intro remaining
  induction remaining with
  | zero =>
      intro i c
      obtain ⟨e, he⟩ := hfail c
      refine ⟨(next c).1, e, ?_⟩
      simp [retryRunFrom, ← he]
  | succ r ihr =>
      intro i c
      obtain ⟨e, he⟩ := hfail c
      obtain ⟨c'', e', hrec⟩ := ihr (i + 1) (next c).1
      refine ⟨c'', e', ?_⟩
      simp only [retryRunFrom, he, hrec, List.range'_succ]
      simp

/-- The context a given attempt of the retry loop starts from: attempt 0
(0-based) starts from `c`, and attempt `j + 1` starts from the state
attempt `j` produced — the attempts run sequentially on one thread, each
seeing its predecessor's mutations. -/
def attemptState (next : HookHandler O P R V ε) (c : PipeContext O P R V) :
    Nat → PipeContext O P R V
  | 0 => c
  | j + 1 => (next (attemptState next c j)).1

/-- Starting the attempt sequence one step later shifts its numbering. -/
theorem attemptState_shift (next : HookHandler O P R V ε)
    (c : PipeContext O P R V) :
    ∀ j, attemptState next ((next c).1) j = attemptState next c (j + 1) := by
  intro j
  induction j with
  | zero => rfl
  | succ j ihj => simp only [attemptState, ihj]

/-- If the attempts with 0-based indices `0, …, k-1` fail and attempt `k`
returns nil, the retry loop (started at attempt index `i` with
`remaining ≥ k` further attempts allowed) stops at attempt `k`: it returns
nil with exactly `k + 1` attempts made, having slept only before the
attempts it actually made. -/
theorem retryRunFrom_firstOk (next : HookHandler O P R V ε) (backoff : Nat) :
    ∀ (k remaining i : Nat) (c : PipeContext O P R V), k ≤ remaining →
    (∀ j, j < k → ∃ e, (next (attemptState next c j)).2 = Outcome.err e) →
    (next (attemptState next c k)).2 = Outcome.ok →
    retryRunFrom next backoff i remaining c
      = ((next (attemptState next c k)).1, Outcome.ok, k + 1,
          (List.range' (i + 1) k).map (fun a => backoff * a)) := by
  intro k
  induction k with
  | zero =>
      intro remaining i c _ _ hok
      have hok' : (next c).2 = Outcome.ok := by
        simpa [attemptState] using hok
      cases remaining with
      | zero => simp [retryRunFrom, attemptState, hok']
      | succ r => simp [retryRunFrom, attemptState, hok']
  | succ k' ih =>
      intro remaining i c hk hfails hok
      obtain ⟨e0, he0⟩ := hfails 0 (Nat.succ_pos k')
      have he0' : (next c).2 = Outcome.err e0 := by
        simpa [attemptState] using he0
      cases remaining with
      | zero => omega
      | succ r =>
          have hk' : k' ≤ r := by omega
          have hfails' : ∀ j, j < k' →
              ∃ e, (next (attemptState next ((next c).1) j)).2
                = Outcome.err e := by
            intro j hj
            rw [attemptState_shift next c j]
            exact hfails (j + 1) (by omega)
          have hok' : (next (attemptState next ((next c).1) k')).2
              = Outcome.ok := by
            rw [attemptState_shift next c k']
            exact hok
          have hrec := ih r (i + 1) ((next c).1) hk' hfails' hok'
          rw [attemptState_shift next c k'] at hrec
          simp only [retryRunFrom, he0', hrec, List.range'_succ]
          simp [attemptState]

/-- C6: for every `maxRetries ≥ 0` and backoff, wrapping an always-failing
handler with `RetryFunc` makes exactly `maxRetries + 1` sequential attempts
(attempt `k+1` starts from the state attempt `k` produced), sleeping
`backoff * attemptNumber` between consecutive attempts (attempt numbers
`1, …, maxRetries`, none after the last), and returns an error that wraps
the last attempt's error, whose message is exactly
`"failed after <maxRetries> retries: "` followed by the cause's message —
in particular it begins with `"failed after <maxRetries> retries"`, and
`Unwrap` yields the cause.  Moreover, whenever ANY attempt returns nil —
the attempts at 0-based indices `0, …, k-1` fail and attempt `k` returns
nil, for any `k ≤ maxRetries` — the middleware returns nil immediately,
with exactly `k + 1` attempts made and no further ones, having slept only
between the attempts actually made (`backoff * a` for attempt numbers
`a = 1, …, k`); for `k = 0` that is the nil first attempt: one attempt, no
sleeps. -/
theorem claim_C6 :
    (∀ (maxRetries backoff : Nat) (next : HookHandler O P R V GoError)
        (c : PipeContext O P R V),
      (∀ d, ∃ e, (next d).2 = Outcome.err e) →
      ∃ c'' e,
        retryRunFrom next backoff 0 maxRetries c
          = (c'', Outcome.err e, maxRetries + 1,
              (List.range' 1 maxRetries).map (fun a => backoff * a))
        ∧ RetryFunc maxRetries backoff next c
            = (c'', Outcome.err (GoError.wrapf
                ("failed after " ++ toString maxRetries ++ " retries: ") e))
        ∧ (GoError.wrapf
              ("failed after " ++ toString maxRetries ++ " retries: ") e).message
            = "failed after " ++ toString maxRetries ++ " retries: "
              ++ e.message
        ∧ (GoError.wrapf
              ("failed after " ++ toString maxRetries ++ " retries: ") e).Unwrap
            = some e)
    ∧ (∀ (maxRetries backoff k : Nat) (next : HookHandler O P R V GoError)
        (c : PipeContext O P R V),
      k ≤ maxRetries →
      (∀ j, j < k → ∃ e, (next (attemptState next c j)).2 = Outcome.err e) →
      (next (attemptState next c k)).2 = Outcome.ok →
      retryRunFrom next backoff 0 maxRetries c
        = ((next (attemptState next c k)).1, Outcome.ok, k + 1,
            (List.range' 1 k).map (fun a => backoff * a))
      ∧ RetryFunc maxRetries backoff next c
          = ((next (attemptState next c k)).1, Outcome.ok)) := by
  constructor
  · intro maxRetries backoff next c hfail
    obtain ⟨c'', e, hrun⟩ := retryRunFrom_allFail next backoff hfail maxRetries 0 c
    refine ⟨c'', e, hrun, ?_, rfl, rfl⟩
    simp [RetryFunc, hrun]
  · intro maxRetries backoff k next c hk hfails hok
    have hrun := retryRunFrom_firstOk next backoff k maxRetries 0 c hk
      hfails hok
    refine ⟨hrun, ?_⟩
    simp [RetryFunc, hrun]

/-- C3: if execution reaches the hook at registration index `A.length`
(the hooks `A` before it ran without abort or unskippable failure, leaving
state `c`), that hook has `SkipOnError = false`, and its middleware-wrapped
invocation returns the non-nil error `e`, then `Execute` returns a nil
result together with the structured `PipeError` whose pipeline name, hook
name, hook index and unwrapped cause are exactly the pipeline's name, the
hook's name, the hook's registration index and `e` — never the plain error
`e` itself (the error slot of `ExecOutcome.returned` holds only
`PipeError` values) — and no hook at any index beyond the failing one is
invoked. -/
theorem claim_C3 [Inhabited R] (p : Pipeline O P R V ε) (payload : P)
    (A : List (Hook O P R V ε)) (h : Hook O P R V ε)
    (B : List (Hook O P R V ε)) (c₀ c c' : PipeContext O P R V)
    (tr₀ tr : List (Event ε)) (st : ExecutionStats ε) (e : ε)
    (hhooks : p.hooks = A ++ h :: B)
    (hbefore : runBefore p.beforeExecute 0 (p.initCtx payload) [] = (c₀, tr₀))
    (hA : execLoop p.Name p.middlewares p.onError 0 A c₀
      (NewExecutionStats p.Name) tr₀ = LoopOut.done c st tr none)
    (hlive : c.abort = false)
    (hinv : effectiveHandler p.middlewares h c = (c', Outcome.err e))
    (hskip : h.SkipOnError = false) :
    ∃ st2 tr2,
      p.Execute payload = ExecOutcome.returned none
        (some (newPipeError p.Name h.Name A.length e)) st2 tr2
      ∧ (newPipeError p.Name h.Name A.length e).PipelineName = p.Name
      ∧ (newPipeError p.Name h.Name A.length e).HookName = h.Name
      ∧ (newPipeError p.Name h.Name A.length e).HookIndex = A.length
      ∧ (newPipeError p.Name h.Name A.length e).Unwrap = e
      ∧ ∀ (j : Nat) (nm : String) (oe : Option ε),
          Event.hookRun j nm oe ∈ tr2 → j ≤ A.length := by
  have hab' : c.IsAborted = false := hlive
  have hloop : execLoop p.Name p.middlewares p.onError 0 p.hooks c₀
      (NewExecutionStats p.Name) tr₀
      = LoopOut.done c'
          (st.AddHookStat { Name := h.Name, Index := A.length, Error := some e })
          (tr ++ [Event.hookRun A.length h.Name (some e)]
            ++ (List.range p.onError).map (fun cb => Event.onErrorCb cb h.Name e))
          (some (newPipeError p.Name h.Name A.length e)) := by
    rw [hhooks, execLoop_append, hA]
    simp only [execLoop, hab', Bool.false_eq_true, if_false, hinv, hskip,
      Nat.zero_add]
  refine ⟨(st.AddHookStat
      { Name := h.Name, Index := A.length, Error := some e }).MarkEnd
        (some (newPipeError p.Name h.Name A.length e)),
    (runAfter p.afterExecute 0
      (some (newPipeError p.Name h.Name A.length e)) c'
      (tr ++ [Event.hookRun A.length h.Name (some e)]
        ++ (List.range p.onError).map
            (fun cb => Event.onErrorCb cb h.Name e))).2,
    ?_, rfl, rfl, rfl, rfl, ?_⟩
  · show (match execLoop p.Name p.middlewares p.onError 0 p.hooks
        (runBefore p.beforeExecute 0 (p.initCtx payload) []).1
        (NewExecutionStats p.Name)
        (runBefore p.beforeExecute 0 (p.initCtx payload) []).2 with
      | LoopOut.panicked msg st tr => ExecOutcome.panicked msg st tr
      | LoopOut.done cc stt trr finalErr =>
          match finalErr with
          | some pe => ExecOutcome.returned none (some pe)
              (stt.MarkEnd finalErr)
              (runAfter p.afterExecute 0 finalErr cc trr).2
          | none => ExecOutcome.returned
              (some (runAfter p.afterExecute 0 finalErr cc trr).1.Result) none
              (stt.MarkEnd finalErr)
              (runAfter p.afterExecute 0 finalErr cc trr).2) = _
    rw [hbefore]
    show (match execLoop p.Name p.middlewares p.onError 0 p.hooks c₀
        (NewExecutionStats p.Name) tr₀ with
      | LoopOut.panicked msg st tr => ExecOutcome.panicked msg st tr
      | LoopOut.done cc stt trr finalErr =>
          match finalErr with
          | some pe => ExecOutcome.returned none (some pe)
              (stt.MarkEnd finalErr)
              (runAfter p.afterExecute 0 finalErr cc trr).2
          | none => ExecOutcome.returned
              (some (runAfter p.afterExecute 0 finalErr cc trr).1.Result) none
              (stt.MarkEnd finalErr)
              (runAfter p.afterExecute 0 finalErr cc trr).2) = _
    rw [hloop]
  · intro j nm oe hmem
    rw [runAfter_snd] at hmem
    rcases List.mem_append.mp hmem with hmem1 | hafter
    · rcases List.mem_append.mp hmem1 with hmem2 | honerr
      · rcases List.mem_append.mp hmem2 with hintr | hself
        · have hintrace : Event.hookRun j nm oe
              ∈ (execLoop p.Name p.middlewares p.onError 0 A c₀
                (NewExecutionStats p.Name) tr₀).traceOf := by
            rw [hA]
            simpa [LoopOut.traceOf] using hintr
          rcases execLoop_hookRun_bound p.Name p.middlewares p.onError A 0 c₀
              (NewExecutionStats p.Name) tr₀ j nm oe hintrace with hin0 | hbnd
          · have htr₀ := runBefore_snd p.beforeExecute 0
              (p.initCtx payload) ([] : List (Event ε))
            rw [hbefore] at htr₀
            simp only [] at htr₀
            rw [htr₀] at hin0
            simp only [List.nil_append] at hin0
            rcases List.mem_map.mp hin0 with ⟨b, _, habs⟩
            exact absurd habs (by simp)
          · omega
        · simp only [List.mem_singleton, Event.hookRun.injEq] at hself
          omega
      · rcases List.mem_map.mp honerr with ⟨cb, _, habs⟩
        exact absurd habs (by simp)
    · rcases List.mem_map.mp hafter with ⟨a, _, habs⟩
      exact absurd habs (by simp)

/-- If the full hook loop of an `Execute` run equals a continuation loop
started from intermediate state `(c₁, st₁, tr₁)` at index `i`, then every
event of `tr₁` and every stat of `st₁` survives into the run's final trace
and stats, and any terminal error of the run reports a hook index ≥ `i`. -/
theorem Execute_after_loop [Inhabited R] (p : Pipeline O P R V ε)
    (payload : P) (i : Nat) (B : List (Hook O P R V ε))
    (c₁ : PipeContext O P R V) (st₁ : ExecutionStats ε)
    (tr₁ : List (Event ε))
    (hloop : execLoop p.Name p.middlewares p.onError 0 p.hooks
        (runBefore p.beforeExecute 0 (p.initCtx payload) ([] : List (Event ε))).1
        (NewExecutionStats p.Name)
        (runBefore p.beforeExecute 0 (p.initCtx payload) ([] : List (Event ε))).2
      = execLoop p.Name p.middlewares p.onError i B c₁ st₁ tr₁) :
    (∀ ev ∈ tr₁, ev ∈ (p.Execute payload).traceOf)
    ∧ (∀ s ∈ st₁.HookStats, s ∈ (p.Execute payload).statsOf.HookStats)
    ∧ (∀ pe, (p.Execute payload).errorOf = some pe → i ≤ pe.HookIndex) := by
  have hE : p.Execute payload
      = (match execLoop p.Name p.middlewares p.onError i B c₁ st₁ tr₁ with
        | LoopOut.panicked msg st tr => ExecOutcome.panicked msg st tr
        | LoopOut.done cc stt trr finalErr =>
            match finalErr with
            | some pe => ExecOutcome.returned none (some pe)
                (stt.MarkEnd finalErr)
                (runAfter p.afterExecute 0 finalErr cc trr).2
            | none => ExecOutcome.returned
                (some (runAfter p.afterExecute 0 finalErr cc trr).1.Result)
                none (stt.MarkEnd finalErr)
                (runAfter p.afterExecute 0 finalErr cc trr).2) := by
    show (match execLoop p.Name p.middlewares p.onError 0 p.hooks
        (runBefore p.beforeExecute 0 (p.initCtx payload) ([] : List (Event ε))).1
        (NewExecutionStats p.Name)
        (runBefore p.beforeExecute 0 (p.initCtx payload) ([] : List (Event ε))).2 with
      | LoopOut.panicked msg st tr => ExecOutcome.panicked msg st tr
      | LoopOut.done cc stt trr finalErr =>
          match finalErr with
          | some pe => ExecOutcome.returned none (some pe)
              (stt.MarkEnd finalErr)
              (runAfter p.afterExecute 0 finalErr cc trr).2
          | none => ExecOutcome.returned
              (some (runAfter p.afterExecute 0 finalErr cc trr).1.Result)
              none (stt.MarkEnd finalErr)
              (runAfter p.afterExecute 0 finalErr cc trr).2) = _
    rw [hloop]
  obtain ⟨d, hd⟩ := execLoop_trace_extend p.Name p.middlewares p.onError B
    i c₁ st₁ tr₁
  obtain ⟨ds, hds⟩ := execLoop_stats_extend p.Name p.middlewares p.onError B
    i c₁ st₁ tr₁
  have hge := execLoop_finalErr_ge p.Name p.middlewares p.onError B i c₁ st₁ tr₁
  rcases hcase : execLoop p.Name p.middlewares p.onError i B c₁ st₁ tr₁ with
    ⟨c2, st2, tr2, fe⟩ | ⟨msg, st2, tr2⟩
  · rw [hcase] at hd hds hE
    simp only [LoopOut.traceOf] at hd
    simp only [LoopOut.statsOf] at hds
    cases fe with
    | some pe0 =>
        simp only at hE
        refine ⟨?_, ?_, ?_⟩
        · intro ev hev
          rw [hE]
          simp only [ExecOutcome.traceOf]
          rw [runAfter_snd, hd]
          exact List.mem_append.mpr (Or.inl (List.mem_append.mpr (Or.inl hev)))
        · intro s hs
          rw [hE]
          simp only [ExecOutcome.statsOf, ExecutionStats.MarkEnd]
          rw [hds]
          exact List.mem_append.mpr (Or.inl hs)
        · intro pe hpe
          rw [hE] at hpe
          simp only [ExecOutcome.errorOf, Option.some.injEq] at hpe
          refine hge pe ?_
          rw [hcase]
          simp [LoopOut.finalErrOf, hpe]
    | none =>
        simp only at hE
        refine ⟨?_, ?_, ?_⟩
        · intro ev hev
          rw [hE]
          simp only [ExecOutcome.traceOf]
          rw [runAfter_snd, hd]
          exact List.mem_append.mpr (Or.inl (List.mem_append.mpr (Or.inl hev)))
        · intro s hs
          rw [hE]
          simp only [ExecOutcome.statsOf, ExecutionStats.MarkEnd]
          rw [hds]
          exact List.mem_append.mpr (Or.inl hs)
        · intro pe hpe
          rw [hE] at hpe
          simp [ExecOutcome.errorOf] at hpe
  · rw [hcase] at hd hds hE
    simp only [LoopOut.traceOf] at hd
    simp only [LoopOut.statsOf] at hds
    refine ⟨?_, ?_, ?_⟩
    · intro ev hev
      rw [hE]
      simp only [ExecOutcome.traceOf]
      rw [hd]
      exact List.mem_append.mpr (Or.inl hev)
    · intro s hs
      rw [hE]
      simp only [ExecOutcome.statsOf]
      rw [hds]
      exact List.mem_append.mpr (Or.inl hs)
    · intro pe hpe
      rw [hE] at hpe
      simp [ExecOutcome.errorOf] at hpe

/-- C4: if execution reaches the hook at registration index `A.length`,
that hook has `SkipOnError = true`, and its middleware-wrapped invocation
returns the non-nil error `e`, then all `onError` callbacks are invoked in
registration order with that hook's name and `e` (they appear in order in
the trace segment the failing hook contributes, and each survives into the
run's final trace), the failure is recorded in that step's stat record
(which survives into the final stats), the loop continues with the
remaining hooks `B` exactly as if started from the post-hook state (so
subsequent hooks still run, absent a later abort, failure or panic), and
this error is not the run's terminal error: any terminal error of the run
reports a strictly later hook index. -/
theorem claim_C4 [Inhabited R] (p : Pipeline O P R V ε) (payload : P)
    (A : List (Hook O P R V ε)) (h : Hook O P R V ε)
    (B : List (Hook O P R V ε)) (c₀ c c' : PipeContext O P R V)
    (tr₀ tr : List (Event ε)) (st : ExecutionStats ε) (e : ε)
    (hhooks : p.hooks = A ++ h :: B)
    (hbefore : runBefore p.beforeExecute 0 (p.initCtx payload) [] = (c₀, tr₀))
    (hA : execLoop p.Name p.middlewares p.onError 0 A c₀
      (NewExecutionStats p.Name) tr₀ = LoopOut.done c st tr none)
    (hlive : c.abort = false)
    (hinv : effectiveHandler p.middlewares h c = (c', Outcome.err e))
    (hskip : h.SkipOnError = true) :
    (execLoop p.Name p.middlewares p.onError 0 p.hooks c₀
        (NewExecutionStats p.Name) tr₀
      = execLoop p.Name p.middlewares p.onError (A.length + 1) B c'
          (st.AddHookStat { Name := h.Name, Index := A.length, Error := some e })
          (tr ++ [Event.hookRun A.length h.Name (some e)]
            ++ (List.range p.onError).map (fun cb => Event.onErrorCb cb h.Name e)))
    ∧ Event.hookRun A.length h.Name (some e) ∈ (p.Execute payload).traceOf
    ∧ (∀ cb, cb < p.onError →
        Event.onErrorCb cb h.Name e ∈ (p.Execute payload).traceOf)
    ∧ ({ Name := h.Name, Index := A.length, Error := some e } : HookStat ε)
        ∈ (p.Execute payload).statsOf.HookStats
    ∧ (∀ pe, (p.Execute payload).errorOf = some pe → A.length < pe.HookIndex) := by
  have hab' : c.IsAborted = false := hlive
  have hcont : execLoop p.Name p.middlewares p.onError 0 p.hooks c₀
      (NewExecutionStats p.Name) tr₀
      = execLoop p.Name p.middlewares p.onError (A.length + 1) B c'
          (st.AddHookStat { Name := h.Name, Index := A.length, Error := some e })
          (tr ++ [Event.hookRun A.length h.Name (some e)]
            ++ (List.range p.onError).map
                (fun cb => Event.onErrorCb cb h.Name e)) := by
    rw [hhooks, execLoop_append, hA]
    simp only [execLoop, hab', Bool.false_eq_true, if_false, hinv, hskip,
      if_true, Nat.zero_add]
  have hloop0 : execLoop p.Name p.middlewares p.onError 0 p.hooks
      (runBefore p.beforeExecute 0 (p.initCtx payload)
        ([] : List (Event ε))).1
      (NewExecutionStats p.Name)
      (runBefore p.beforeExecute 0 (p.initCtx payload)
        ([] : List (Event ε))).2
      = execLoop p.Name p.middlewares p.onError (A.length + 1) B c'
          (st.AddHookStat { Name := h.Name, Index := A.length, Error := some e })
          (tr ++ [Event.hookRun A.length h.Name (some e)]
            ++ (List.range p.onError).map
                (fun cb => Event.onErrorCb cb h.Name e)) := by
    rw [hbefore]
    exact hcont
  obtain ⟨htr, hst, herr⟩ := Execute_after_loop p payload (A.length + 1) B c'
    (st.AddHookStat { Name := h.Name, Index := A.length, Error := some e })
    (tr ++ [Event.hookRun A.length h.Name (some e)]
      ++ (List.range p.onError).map (fun cb => Event.onErrorCb cb h.Name e))
    hloop0
  refine ⟨hcont, ?_, ?_, ?_, ?_⟩
  · exact htr _ (List.mem_append.mpr (Or.inl
      (List.mem_append.mpr (Or.inr (List.mem_singleton.mpr rfl)))))
  · intro cb hcb
    exact htr _ (List.mem_append.mpr (Or.inr
      (List.mem_map.mpr ⟨cb, List.mem_range.mpr hcb, rfl⟩)))
  · exact hst _ (by simp [ExecutionStats.AddHookStat])
  · intro pe hpe
    have := herr pe hpe
    omega

/-- In the state reached after the before-callbacks and a clean run of the
hooks `A`, every completed-hook event concerns an index below `A.length`. -/
theorem reached_trace_bound [Inhabited R] (p : Pipeline O P R V ε)
    (payload : P) (A : List (Hook O P R V ε)) (c₀ c : PipeContext O P R V)
    (tr₀ tr : List (Event ε)) (st : ExecutionStats ε)
    (hbefore : runBefore p.beforeExecute 0 (p.initCtx payload) [] = (c₀, tr₀))
    (hA : execLoop p.Name p.middlewares p.onError 0 A c₀
      (NewExecutionStats p.Name) tr₀ = LoopOut.done c st tr none) :
    ∀ (j : Nat) (nm : String) (oe : Option ε),
      Event.hookRun j nm oe ∈ tr → j < A.length := by
  intro j nm oe hintr
  have hintrace : Event.hookRun j nm oe
      ∈ (execLoop p.Name p.middlewares p.onError 0 A c₀
        (NewExecutionStats p.Name) tr₀).traceOf := by
    rw [hA]
    simpa [LoopOut.traceOf] using hintr
  rcases execLoop_hookRun_bound p.Name p.middlewares p.onError A 0 c₀
      (NewExecutionStats p.Name) tr₀ j nm oe hintrace with hin0 | hbnd
  · have htr₀ := runBefore_snd p.beforeExecute 0
      (p.initCtx payload) ([] : List (Event ε))
    rw [hbefore] at htr₀
    simp only [] at htr₀
    rw [htr₀] at hin0
    simp only [List.nil_append] at hin0
    rcases List.mem_map.mp hin0 with ⟨b, _, habs⟩
    exact absurd habs (by simp)
  · omega

/-- C2 (amended): if the hook at registration index `A.length` is reached,
its middleware-wrapped invocation sets the abort flag, and that invocation
itself does not fail unskippably (it returns nil, or returns an error but
is marked skip-on-error), then no hook at any later index is invoked,
`Execute` returns a non-nil result with a nil error (abort is not reported
as a failure), and every registered after-execute callback still runs,
receiving the nil final error. -/
theorem claim_C2_amended [Inhabited R] (p : Pipeline O P R V ε) (payload : P)
    (A : List (Hook O P R V ε)) (h : Hook O P R V ε)
    (B : List (Hook O P R V ε)) (c₀ c c' : PipeContext O P R V)
    (tr₀ tr : List (Event ε)) (st : ExecutionStats ε) (out : Outcome ε)
    (hhooks : p.hooks = A ++ h :: B)
    (hbefore : runBefore p.beforeExecute 0 (p.initCtx payload) [] = (c₀, tr₀))
    (hA : execLoop p.Name p.middlewares p.onError 0 A c₀
      (NewExecutionStats p.Name) tr₀ = LoopOut.done c st tr none)
    (hlive : c.abort = false)
    (hinv : effectiveHandler p.middlewares h c = (c', out))
    (habort : c'.abort = true)
    (hnofail : out = Outcome.ok
      ∨ ∃ e, out = Outcome.err e ∧ h.SkipOnError = true) :
    ∃ r st2 tr2,
      p.Execute payload = ExecOutcome.returned (some r) none st2 tr2
      ∧ (∀ (j : Nat) (nm : String) (oe : Option ε),
          Event.hookRun j nm oe ∈ tr2 → j ≤ A.length)
      ∧ (∀ a, a < p.afterExecute.length → Event.afterCb a none ∈ tr2) := by
  have hab' : c.IsAborted = false := hlive
  have hbound := reached_trace_bound p payload A c₀ c tr₀ tr st hbefore hA
  rcases hnofail with hok | ⟨e, herr, hskip⟩
  · subst hok
    have hloop : execLoop p.Name p.middlewares p.onError 0 p.hooks c₀
        (NewExecutionStats p.Name) tr₀
        = LoopOut.done c'
            (st.AddHookStat { Name := h.Name, Index := A.length, Error := none })
            (tr ++ [Event.hookRun A.length h.Name none]) none := by
      rw [hhooks, execLoop_append, hA]
      simp only [execLoop, hab', Bool.false_eq_true, if_false, hinv,
        Nat.zero_add]
      exact execLoop_of_aborted p.Name p.middlewares p.onError (A.length + 1)
        B c' _ _ habort
    refine ⟨(runAfter p.afterExecute 0 none c'
        (tr ++ [Event.hookRun A.length h.Name none])).1.Result,
      (st.AddHookStat
        { Name := h.Name, Index := A.length, Error := none }).MarkEnd none,
      (runAfter p.afterExecute 0 none c'
        (tr ++ [Event.hookRun A.length h.Name none])).2, ?_, ?_, ?_⟩
    · show (match execLoop p.Name p.middlewares p.onError 0 p.hooks
          (runBefore p.beforeExecute 0 (p.initCtx payload)
            ([] : List (Event ε))).1
          (NewExecutionStats p.Name)
          (runBefore p.beforeExecute 0 (p.initCtx payload)
            ([] : List (Event ε))).2 with
        | LoopOut.panicked msg stt trr => ExecOutcome.panicked msg stt trr
        | LoopOut.done cc stt trr finalErr =>
            match finalErr with
            | some pe => ExecOutcome.returned none (some pe)
                (stt.MarkEnd finalErr)
                (runAfter p.afterExecute 0 finalErr cc trr).2
            | none => ExecOutcome.returned
                (some (runAfter p.afterExecute 0 finalErr cc trr).1.Result)
                none (stt.MarkEnd finalErr)
                (runAfter p.afterExecute 0 finalErr cc trr).2) = _
      rw [hbefore]
      show (match execLoop p.Name p.middlewares p.onError 0 p.hooks c₀
          (NewExecutionStats p.Name) tr₀ with
        | LoopOut.panicked msg stt trr => ExecOutcome.panicked msg stt trr
        | LoopOut.done cc stt trr finalErr =>
            match finalErr with
            | some pe => ExecOutcome.returned none (some pe)
                (stt.MarkEnd finalErr)
                (runAfter p.afterExecute 0 finalErr cc trr).2
            | none => ExecOutcome.returned
                (some (runAfter p.afterExecute 0 finalErr cc trr).1.Result)
                none (stt.MarkEnd finalErr)
                (runAfter p.afterExecute 0 finalErr cc trr).2) = _
      rw [hloop]
    · intro j nm oe hmem
      rw [runAfter_snd] at hmem
      rcases List.mem_append.mp hmem with hmem1 | hafter
      · rcases List.mem_append.mp hmem1 with hintr | hself
        · exact Nat.le_of_lt (hbound j nm oe hintr)
        · simp only [List.mem_singleton, Event.hookRun.injEq] at hself
          omega
      · rcases List.mem_map.mp hafter with ⟨a, _, habs⟩
        exact absurd habs (by simp)
    · intro a ha
      rw [runAfter_snd]
      exact List.mem_append.mpr (Or.inr
        (List.mem_map.mpr ⟨a, List.mem_range'_1.mpr ⟨Nat.zero_le a, by omega⟩,
          rfl⟩))
  · subst herr
    have hloop : execLoop p.Name p.middlewares p.onError 0 p.hooks c₀
        (NewExecutionStats p.Name) tr₀
        = LoopOut.done c'
            (st.AddHookStat
              { Name := h.Name, Index := A.length, Error := some e })
            (tr ++ [Event.hookRun A.length h.Name (some e)]
              ++ (List.range p.onError).map
                  (fun cb => Event.onErrorCb cb h.Name e)) none := by
      rw [hhooks, execLoop_append, hA]
      simp only [execLoop, hab', Bool.false_eq_true, if_false, hinv, hskip,
        if_true, Nat.zero_add]
      exact execLoop_of_aborted p.Name p.middlewares p.onError (A.length + 1)
        B c' _ _ habort
    refine ⟨(runAfter p.afterExecute 0 none c'
        (tr ++ [Event.hookRun A.length h.Name (some e)]
          ++ (List.range p.onError).map
              (fun cb => Event.onErrorCb cb h.Name e))).1.Result,
      (st.AddHookStat
        { Name := h.Name, Index := A.length, Error := some e }).MarkEnd none,
      (runAfter p.afterExecute 0 none c'
        (tr ++ [Event.hookRun A.length h.Name (some e)]
          ++ (List.range p.onError).map
              (fun cb => Event.onErrorCb cb h.Name e))).2, ?_, ?_, ?_⟩
    · show (match execLoop p.Name p.middlewares p.onError 0 p.hooks
          (runBefore p.beforeExecute 0 (p.initCtx payload)
            ([] : List (Event ε))).1
          (NewExecutionStats p.Name)
          (runBefore p.beforeExecute 0 (p.initCtx payload)
            ([] : List (Event ε))).2 with
        | LoopOut.panicked msg stt trr => ExecOutcome.panicked msg stt trr
        | LoopOut.done cc stt trr finalErr =>
            match finalErr with
            | some pe => ExecOutcome.returned none (some pe)
                (stt.MarkEnd finalErr)
                (runAfter p.afterExecute 0 finalErr cc trr).2
            | none => ExecOutcome.returned
                (some (runAfter p.afterExecute 0 finalErr cc trr).1.Result)
                none (stt.MarkEnd finalErr)
                (runAfter p.afterExecute 0 finalErr cc trr).2) = _
      rw [hbefore]
      show (match execLoop p.Name p.middlewares p.onError 0 p.hooks c₀
          (NewExecutionStats p.Name) tr₀ with
        | LoopOut.panicked msg stt trr => ExecOutcome.panicked msg stt trr
        | LoopOut.done cc stt trr finalErr =>
            match finalErr with
            | some pe => ExecOutcome.returned none (some pe)
                (stt.MarkEnd finalErr)
                (runAfter p.afterExecute 0 finalErr cc trr).2
            | none => ExecOutcome.returned
                (some (runAfter p.afterExecute 0 finalErr cc trr).1.Result)
                none (stt.MarkEnd finalErr)
                (runAfter p.afterExecute 0 finalErr cc trr).2) = _
      rw [hloop]
    · intro j nm oe hmem
      rw [runAfter_snd] at hmem
      rcases List.mem_append.mp hmem with hmem1 | hafter
      · rcases List.mem_append.mp hmem1 with hmem2 | honerr
        · rcases List.mem_append.mp hmem2 with hintr | hself
          · exact Nat.le_of_lt (hbound j nm oe hintr)
          · simp only [List.mem_singleton, Event.hookRun.injEq] at hself
            omega
        · rcases List.mem_map.mp honerr with ⟨cb, _, habs⟩
          exact absurd habs (by simp)
      · rcases List.mem_map.mp hafter with ⟨a, _, habs⟩
        exact absurd habs (by simp)
    · intro a ha
      rw [runAfter_snd]
      exact List.mem_append.mpr (Or.inr
        (List.mem_map.mpr ⟨a, List.mem_range'_1.mpr ⟨Nat.zero_le a, by omega⟩,
          rfl⟩))

/-- A hook that calls `Abort()` during its invocation and then returns a
non-nil error, with the default `SkipOnError = false`. -/
def abortFailHook : Hook Unit Unit Nat Unit GoError :=
  { Name := "h0", Description := "",
    Handler := fun c => (c.Abort, Outcome.err (GoError.new "boom")),
    Timeout := 0, SkipOnError := false }

/-- A later hook that should never run once hook 0 aborts. -/
def recordHook : Hook Unit Unit Nat Unit GoError :=
  { Name := "h1", Description := "", Handler := fun c => (c, Outcome.ok),
    Timeout := 0, SkipOnError := false }

/-- Pipeline whose hook at index 0 aborts and also fails unskippably. -/
def cexC2 : Pipeline Unit Unit Nat Unit GoError :=
  { Name := "cx2", option := (), hooks := [abortFailHook, recordHook],
    middlewares := [], beforeExecute := [], afterExecute := [], onError := 0 }

/-- C2 as stated is false on this input: hook 0 calls `Abort()` during its
invocation (first conjunct: the invocation leaves the abort flag set) and
no earlier hook failed unskippably (it is the first hook), yet `Execute`
returns a nil result and a non-nil structured error — not the promised
non-nil result with nil error — because the hook's own unskippable failure
takes precedence over the abort.  (No hook past index 0 runs, as the trace
shows.) -/
theorem claim_C2_counterexample :
    (abortFailHook.Handler (cexC2.initCtx ())).1.abort = true
    ∧ cexC2.Execute () = ExecOutcome.returned none
        (some { PipelineName := "cx2", HookName := "h0", HookIndex := 0,
                Err := GoError.new "boom" })
        { PipelineName := "cx2",
          HookStats := [{ Name := "h0", Index := 0,
                          Error := some (GoError.new "boom") }],
          Success := false,
          Error := some { PipelineName := "cx2", HookName := "h0",
                          HookIndex := 0, Err := GoError.new "boom" } }
        [Event.hookRun 0 "h0" (some (GoError.new "boom"))] :=
  ⟨rfl, rfl⟩

/-- The completed-hook events of a clean (no-failure, no-abort) run of the
given hooks starting at registration index `i`: one `hookRun` per hook, in
registration order, each with a nil error. -/
def hookRunEvents (i : Nat) : List (Hook O P R V ε) → List (Event ε)
  | [] => []
  | h :: rest => Event.hookRun i h.Name none :: hookRunEvents (i + 1) rest

/-- If every middleware-wrapped hook invocation returns nil and leaves the
abort flag alone, the loop runs every hook once, in order, and finishes
without error or abort. -/
theorem execLoop_allOk (pName : String)
    (mids : List (Middleware O P R V ε)) (nErr : Nat)
    (hooks : List (Hook O P R V ε))
    (hmw : ∀ h_ ∈ hooks, ∀ d, (effectiveHandler mids h_ d).2 = Outcome.ok
      ∧ (effectiveHandler mids h_ d).1.abort = d.abort) :
    ∀ (i : Nat) (c : PipeContext O P R V) (st : ExecutionStats ε)
      (tr : List (Event ε)), c.abort = false →
    ∃ c2 st2, execLoop pName mids nErr i hooks c st tr
      = LoopOut.done c2 st2 (tr ++ hookRunEvents i hooks) none := by
  induction hooks with
  | nil =>
      intro i c st tr hc
      exact ⟨c, st, by simp [execLoop, hookRunEvents]⟩
  | cons hook rest ih =>
      intro i c st tr hc
      have hab' : c.IsAborted = false := hc
      have hspec := hmw hook (by simp) c
      rcases hh : effectiveHandler mids hook c with ⟨c₁, out⟩
      rw [hh] at hspec
      have hout : out = Outcome.ok := hspec.1
      have hc₁ : c₁.abort = false := by rw [hspec.2]; exact hc
      subst hout
      obtain ⟨c2, st2, hrest⟩ := ih
        (fun h_ hm d => hmw h_ (List.mem_cons_of_mem hook hm) d) (i + 1) c₁
        (st.AddHookStat { Name := hook.Name, Index := i, Error := none })
        (tr ++ [Event.hookRun i hook.Name none]) hc₁
      refine ⟨c2, st2, ?_⟩
      simp only [execLoop, hab', Bool.false_eq_true, if_false, hh, hrest,
        hookRunEvents]
      simp

/-- `runBefore` leaves the abort flag unchanged when every callback does. -/
theorem runBefore_abort
    (cbs : List (PipeContext O P R V → PipeContext O P R V))
    (hcb : ∀ f ∈ cbs, ∀ d, (f d).abort = d.abort) :
    ∀ (i : Nat) (c : PipeContext O P R V) (tr : List (Event ε)),
    (runBefore cbs i c tr).1.abort = c.abort := by
  induction cbs with
  | nil => intro i c tr; rfl
  | cons f rest ih =>
      intro i c tr
      rw [runBefore, ih (fun g hg d => hcb g (List.mem_cons_of_mem f hg) d)]
      exact hcb f (by simp) c

/-- C8 (amended): for every pipeline whose middleware-wrapped hook
invocations all return nil and leave the abort flag alone, and whose
`beforeExecute` callbacks leave the abort flag alone, `Execute` invokes
every hook exactly once in registration order; all `beforeExecute`
callbacks run in registration order before the first hook; all
`afterExecute` callbacks run in registration order after the last hook,
each receiving the nil final error; and `Execute` returns a non-nil result
with a nil error (the full event trace is exactly
before-callbacks ++ one hookRun per hook in order ++ after-callbacks). -/
theorem claim_C8_amended [Inhabited R] (p : Pipeline O P R V ε) (payload : P)
    (hmw : ∀ h_ ∈ p.hooks, ∀ d,
      (effectiveHandler p.middlewares h_ d).2 = Outcome.ok
      ∧ (effectiveHandler p.middlewares h_ d).1.abort = d.abort)
    (hbef : ∀ f ∈ p.beforeExecute, ∀ d, (f d).abort = d.abort) :
    ∃ r st2,
      p.Execute payload = ExecOutcome.returned (some r) none st2
        ((List.range' 0 p.beforeExecute.length).map Event.beforeCb
          ++ hookRunEvents 0 p.hooks
          ++ (List.range' 0 p.afterExecute.length).map
              (fun a => Event.afterCb a none))
      ∧ st2.Success = true := by
  have hc₀ : (runBefore p.beforeExecute 0 (p.initCtx payload)
      ([] : List (Event ε))).1.abort = false := by
    rw [runBefore_abort p.beforeExecute hbef]
    rfl
  obtain ⟨c2, st2', hloop⟩ := execLoop_allOk p.Name p.middlewares p.onError
    p.hooks hmw 0
    (runBefore p.beforeExecute 0 (p.initCtx payload) ([] : List (Event ε))).1
    (NewExecutionStats p.Name)
    (runBefore p.beforeExecute 0 (p.initCtx payload) ([] : List (Event ε))).2
    hc₀
  refine ⟨(runAfter p.afterExecute 0 none c2
      ((runBefore p.beforeExecute 0 (p.initCtx payload)
        ([] : List (Event ε))).2 ++ hookRunEvents 0 p.hooks)).1.Result,
    st2'.MarkEnd none, ?_, rfl⟩
  show (match execLoop p.Name p.middlewares p.onError 0 p.hooks
      (runBefore p.beforeExecute 0 (p.initCtx payload)
        ([] : List (Event ε))).1
      (NewExecutionStats p.Name)
      (runBefore p.beforeExecute 0 (p.initCtx payload)
        ([] : List (Event ε))).2 with
    | LoopOut.panicked msg stt trr => ExecOutcome.panicked msg stt trr
    | LoopOut.done cc stt trr finalErr =>
        match finalErr with
        | some pe => ExecOutcome.returned none (some pe)
            (stt.MarkEnd finalErr)
            (runAfter p.afterExecute 0 finalErr cc trr).2
        | none => ExecOutcome.returned
            (some (runAfter p.afterExecute 0 finalErr cc trr).1.Result)
            none (stt.MarkEnd finalErr)
            (runAfter p.afterExecute 0 finalErr cc trr).2) = _
  rw [hloop]
  simp only [runAfter_snd, runBefore_snd, List.nil_append, List.append_assoc]

/-- A hook whose own handler always returns nil and never touches the
abort flag. -/
def okHookC8 : Hook Unit Unit Nat Unit GoError :=
  { Name := "ok", Description := "", Handler := fun c => (c, Outcome.ok),
    Timeout := 0, SkipOnError := false }

/-- A registered middleware that replaces the wrapped invocation with a
failure (it never calls `next`). -/
def failMwC8 : Middleware Unit Unit Nat Unit GoError :=
  fun _next => fun c => (c, Outcome.err (GoError.new "mw-injected"))

/-- Pipeline whose only hook returns nil and never aborts, but which
registers `failMwC8`. -/
def cexC8 : Pipeline Unit Unit Nat Unit GoError :=
  { Name := "cx8", option := (), hooks := [okHookC8],
    middlewares := [failMwC8], beforeExecute := [], afterExecute := [],
    onError := 0 }

/-- C8 as stated is false on this input: every hook of `cexC8` returns nil
and never aborts (first conjunct shows the hook's own handler returning
`ok` on the initial context without touching it), yet `Execute` returns a
nil result and a non-nil error, because the hook is invoked through the
registered middleware, which injects a failure. -/
theorem claim_C8_counterexample :
    okHookC8.Handler (cexC8.initCtx ()) = (cexC8.initCtx (), Outcome.ok)
    ∧ cexC8.Execute () = ExecOutcome.returned none
        (some { PipelineName := "cx8", HookName := "ok", HookIndex := 0,
                Err := GoError.new "mw-injected" })
        { PipelineName := "cx8",
          HookStats := [{ Name := "ok", Index := 0,
                          Error := some (GoError.new "mw-injected") }],
          Success := false,
          Error := some { PipelineName := "cx8", HookName := "ok",
                          HookIndex := 0, Err := GoError.new "mw-injected" } }
        [Event.hookRun 0 "ok" (some (GoError.new "mw-injected"))] :=
  ⟨rfl, rfl⟩

/-- C9: `MustGet` on a key absent from the scratch map panics with a
message naming the missing key (`"key not found: " ++ k`), instead of
returning a value or a normal error, while `Get` on the same state returns
`(nil, false)` without raising; and when a hook's middleware-wrapped
invocation panics (as a `MustGet` panic inside the handler does, since it
never reaches the hook's return value), the orchestrator's normal error
path does not touch it: `Execute` ends as a propagating panic carrying the
same message, with the stats exactly as they were before that hook (no
stat record for it, no `MarkEnd`) and no terminal `PipeError`, and the
trace exactly as it was (no hookRun or callback event for it). -/
theorem claim_C9 [Inhabited R] :
    (∀ (c : PipeContext O P R V) (k : String), c.data k = none →
      c.MustGet k = MustGetOut.panicked ("key not found: " ++ k)
      ∧ c.Get k = (none, false))
    ∧ (∀ (p : Pipeline O P R V ε) (payload : P)
        (A : List (Hook O P R V ε)) (h : Hook O P R V ε)
        (B : List (Hook O P R V ε)) (c₀ c c' : PipeContext O P R V)
        (tr₀ tr : List (Event ε)) (st : ExecutionStats ε) (msg : String),
      p.hooks = A ++ h :: B →
      runBefore p.beforeExecute 0 (p.initCtx payload) [] = (c₀, tr₀) →
      execLoop p.Name p.middlewares p.onError 0 A c₀
        (NewExecutionStats p.Name) tr₀ = LoopOut.done c st tr none →
      c.abort = false →
      effectiveHandler p.middlewares h c = (c', Outcome.panicked msg) →
      p.Execute payload = ExecOutcome.panicked msg st tr) := by
  constructor
  · intro c k hk
    constructor
    · simp [PipeContext.MustGet, hk]
    · simp [PipeContext.Get, hk]
  · intro p payload A h B c₀ c c' tr₀ tr st msg hhooks hbefore hA hlive hinv
    have hab' : c.IsAborted = false := hlive
    have hloop : execLoop p.Name p.middlewares p.onError 0 p.hooks c₀
        (NewExecutionStats p.Name) tr₀ = LoopOut.panicked msg st tr := by
      rw [hhooks, execLoop_append, hA]
      simp only [execLoop, hab', Bool.false_eq_true, if_false, hinv]
    show (match execLoop p.Name p.middlewares p.onError 0 p.hooks
        (runBefore p.beforeExecute 0 (p.initCtx payload)
          ([] : List (Event ε))).1
        (NewExecutionStats p.Name)
        (runBefore p.beforeExecute 0 (p.initCtx payload)
          ([] : List (Event ε))).2 with
      | LoopOut.panicked m stt trr => ExecOutcome.panicked m stt trr
      | LoopOut.done cc stt trr finalErr =>
          match finalErr with
          | some pe => ExecOutcome.returned none (some pe)
              (stt.MarkEnd finalErr)
              (runAfter p.afterExecute 0 finalErr cc trr).2
          | none => ExecOutcome.returned
              (some (runAfter p.afterExecute 0 finalErr cc trr).1.Result)
              none (stt.MarkEnd finalErr)
              (runAfter p.afterExecute 0 finalErr cc trr).2) = _
    rw [hbefore]
    show (match execLoop p.Name p.middlewares p.onError 0 p.hooks c₀
        (NewExecutionStats p.Name) tr₀ with
      | LoopOut.panicked m stt trr => ExecOutcome.panicked m stt trr
      | LoopOut.done cc stt trr finalErr =>
          match finalErr with
          | some pe => ExecOutcome.returned none (some pe)
              (stt.MarkEnd finalErr)
              (runAfter p.afterExecute 0 finalErr cc trr).2
          | none => ExecOutcome.returned
              (some (runAfter p.afterExecute 0 finalErr cc trr).1.Result)
              none (stt.MarkEnd finalErr)
              (runAfter p.afterExecute 0 finalErr cc trr).2) = _
    rw [hloop]

/-- C5: whenever `Execute` returns (rather than panicking), the final stats
satisfy: the recorded `HookStats`, mapped to their invocation events, are
exactly the completed-hook events of the run's trace, in order (so the list
has one entry per hook actually invoked — skip-on-error failures included,
never-reached hooks excluded — and each entry's `Error` is that
invocation's returned error); entry `k` carries `Index = k` and the name of
the hook registered at position `k`; `Success` is true iff the returned
error is nil; and the stats' `Error` equals the returned terminal error. -/
theorem claim_C5 [Inhabited R] (p : Pipeline O P R V ε) (payload : P)
    (r : Option R) (fe : Option (PipeError ε)) (st : ExecutionStats ε)
    (tr : List (Event ε))
    (hrun : p.Execute payload = ExecOutcome.returned r fe st tr) :
    st.HookStats.map statEvent = tr.filter Event.isHookRun
    ∧ st.HookStats.length = (tr.filter Event.isHookRun).length
    ∧ (∀ (k : Nat) (s : HookStat ε), st.HookStats[k]? = some s →
        s.Index = k ∧ ∃ h : Hook O P R V ε,
          p.hooks[k]? = some h ∧ s.Name = h.Name)
    ∧ (st.Success = true ↔ fe = none)
    ∧ st.Error = fe := by
  have hE : p.Execute payload
      = (match execLoop p.Name p.middlewares p.onError 0 p.hooks
          (runBefore p.beforeExecute 0 (p.initCtx payload)
            ([] : List (Event ε))).1
          (NewExecutionStats p.Name)
          (runBefore p.beforeExecute 0 (p.initCtx payload)
            ([] : List (Event ε))).2 with
        | LoopOut.panicked msg stt trr => ExecOutcome.panicked msg stt trr
        | LoopOut.done cc stt trr finalErr =>
            match finalErr with
            | some pe => ExecOutcome.returned none (some pe)
                (stt.MarkEnd finalErr)
                (runAfter p.afterExecute 0 finalErr cc trr).2
            | none => ExecOutcome.returned
                (some (runAfter p.afterExecute 0 finalErr cc trr).1.Result)
                none (stt.MarkEnd finalErr)
                (runAfter p.afterExecute 0 finalErr cc trr).2) := rfl
  rw [hE] at hrun
  have hfilter0 : ((runBefore p.beforeExecute 0 (p.initCtx payload)
      ([] : List (Event ε))).2).filter Event.isHookRun = [] := by
    rw [runBefore_snd]
    refine List.filter_eq_nil_iff.mpr ?_
    intro ev hev
    simp only [List.nil_append] at hev
    rcases List.mem_map.mp hev with ⟨b, _, hb⟩
    rw [← hb]
    simp [Event.isHookRun]
  rcases hloop : execLoop p.Name p.middlewares p.onError 0 p.hooks
      (runBefore p.beforeExecute 0 (p.initCtx payload)
        ([] : List (Event ε))).1
      (NewExecutionStats p.Name)
      (runBefore p.beforeExecute 0 (p.initCtx payload)
        ([] : List (Event ε))).2 with
    ⟨c2, st2, tr2, fe2⟩ | ⟨msg, st2, tr2⟩
  · rw [hloop] at hrun
    have hstev : st2.HookStats.map statEvent = tr2.filter Event.isHookRun := by
      refine execLoop_statsEvents p.Name p.middlewares p.onError p.hooks 0
        _ _ _ _ _ _ _ hloop ?_
      simp [NewExecutionStats, hfilter0]
    obtain ⟨ns, hns, hprop⟩ := execLoop_stats_decomp p.Name p.middlewares
      p.onError p.hooks 0 _ _ _ _ _ _ _ hloop
    have hns' : st2.HookStats = ns := by
      simpa [NewExecutionStats] using hns
    have hafter : ∀ (fe0 : Option (PipeError ε)) (cc : PipeContext O P R V),
        ((runAfter p.afterExecute 0 fe0 cc tr2).2).filter Event.isHookRun
          = tr2.filter Event.isHookRun := by
      intro fe0 cc
      rw [runAfter_snd, List.filter_append]
      have : ((List.range' 0 p.afterExecute.length).map
          (fun j => Event.afterCb j fe0)).filter Event.isHookRun = [] := by
        refine List.filter_eq_nil_iff.mpr ?_
        intro ev hev
        rcases List.mem_map.mp hev with ⟨b, _, hb⟩
        rw [← hb]
        simp [Event.isHookRun]
      rw [this, List.append_nil]
    cases fe2 with
    | some pe =>
        simp only [ExecOutcome.returned.injEq] at hrun
        obtain ⟨hr, hfe, hst, htr⟩ := hrun
        have hstats : st.HookStats = st2.HookStats := by
          rw [← hst]; rfl
        have hmain : st.HookStats.map statEvent = tr.filter Event.isHookRun := by
          rw [hstats, hstev, ← htr, hafter]
        refine ⟨hmain, ?_, ?_, ?_, ?_⟩
        · have := congrArg List.length hmain
          simpa using this
        · intro k s hk
          rw [hstats, hns'] at hk
          obtain ⟨hidx, h2, hh2, hnm⟩ := hprop k s hk
          exact ⟨by omega, h2, hh2, hnm⟩
        · rw [← hst, ← hfe]
          simp [ExecutionStats.MarkEnd]
        · rw [← hst, ← hfe]
          simp [ExecutionStats.MarkEnd]
    | none =>
        simp only [ExecOutcome.returned.injEq] at hrun
        obtain ⟨hr, hfe, hst, htr⟩ := hrun
        have hstats : st.HookStats = st2.HookStats := by
          rw [← hst]; rfl
        have hmain : st.HookStats.map statEvent = tr.filter Event.isHookRun := by
          rw [hstats, hstev, ← htr, hafter]
        refine ⟨hmain, ?_, ?_, ?_, ?_⟩
        · have := congrArg List.length hmain
          simpa using this
        · intro k s hk
          rw [hstats, hns'] at hk
          obtain ⟨hidx, h2, hh2, hnm⟩ := hprop k s hk
          exact ⟨by omega, h2, hh2, hnm⟩
        · rw [← hst, ← hfe]
          simp [ExecutionStats.MarkEnd]
        · rw [← hst, ← hfe]
          simp [ExecutionStats.MarkEnd]
  · rw [hloop] at hrun
    simp at hrun

/-! ## Concrete instances used by the witnesses -/

/-- Unskippable hook that fails with error "we". -/
def failHookW : Hook Unit Unit Nat Unit GoError :=
  { Name := "f", Description := "",
    Handler := fun c => (c, Outcome.err (GoError.new "we")),
    Timeout := 0, SkipOnError := false }

/-- One-hook pipeline whose hook fails unskippably; one onError callback. -/
def wpC3 : Pipeline Unit Unit Nat Unit GoError :=
  { Name := "w3", option := (), hooks := [failHookW], middlewares := [],
    beforeExecute := [], afterExecute := [], onError := 1 }

/-- Witness for C3: on the concrete pipeline `wpC3`, whose single hook
fails unskippably with error "we", `Execute` returns a nil result and the
structured error `⟨"w3", "f", 0, "we"⟩` unwrapping to the original error,
and no hook past index 0 is invoked. -/
theorem claim_C3_witness :
    ∃ st2 tr2,
      wpC3.Execute () = ExecOutcome.returned none
        (some (newPipeError "w3" "f" 0 (GoError.new "we"))) st2 tr2
      ∧ (newPipeError "w3" "f" 0 (GoError.new "we")).PipelineName = "w3"
      ∧ (newPipeError "w3" "f" 0 (GoError.new "we")).HookName = "f"
      ∧ (newPipeError "w3" "f" 0 (GoError.new "we")).HookIndex = 0
      ∧ (newPipeError "w3" "f" 0 (GoError.new "we")).Unwrap = GoError.new "we"
      ∧ ∀ (j : Nat) (nm : String) (oe : Option GoError),
          Event.hookRun j nm oe ∈ tr2 → j ≤ 0 :=
  claim_C3 wpC3 () [] failHookW [] (wpC3.initCtx ()) (wpC3.initCtx ())
    (wpC3.initCtx ()) [] [] (NewExecutionStats "w3") (GoError.new "we")
    rfl rfl rfl rfl rfl rfl

/-- Skip-on-error hook that fails with error "se". -/
def skipFailHookW : Hook Unit Unit Nat Unit GoError :=
  { Name := "s", Description := "",
    Handler := fun c => (c, Outcome.err (GoError.new "se")),
    Timeout := 0, SkipOnError := true }

/-- A later hook that returns nil. -/
def tailHookW : Hook Unit Unit Nat Unit GoError :=
  { Name := "t", Description := "", Handler := fun c => (c, Outcome.ok),
    Timeout := 0, SkipOnError := false }

/-- Pipeline with a skip-on-error failing hook followed by a normal hook;
one onError callback. -/
def wpC4 : Pipeline Unit Unit Nat Unit GoError :=
  { Name := "w4", option := (), hooks := [skipFailHookW, tailHookW],
    middlewares := [], beforeExecute := [], afterExecute := [],
    onError := 1 }

/-- Witness for C4: on `wpC4`, the skip-on-error failure of hook 0 fires
the onError callback with the hook's name and error, is recorded in the
run's stats and trace, lets the loop continue with the remaining hooks,
and is not the terminal error. -/
theorem claim_C4_witness :
    (execLoop wpC4.Name wpC4.middlewares wpC4.onError 0 wpC4.hooks
        (wpC4.initCtx ()) (NewExecutionStats "w4") []
      = execLoop wpC4.Name wpC4.middlewares wpC4.onError 1 [tailHookW]
          (wpC4.initCtx ())
          ((NewExecutionStats "w4").AddHookStat
            { Name := "s", Index := 0, Error := some (GoError.new "se") })
          ([] ++ [Event.hookRun 0 "s" (some (GoError.new "se"))]
            ++ (List.range 1).map
                (fun cb => Event.onErrorCb cb "s" (GoError.new "se"))))
    ∧ Event.hookRun 0 "s" (some (GoError.new "se"))
        ∈ (wpC4.Execute ()).traceOf
    ∧ (∀ cb, cb < 1 →
        Event.onErrorCb cb "s" (GoError.new "se")
          ∈ (wpC4.Execute ()).traceOf)
    ∧ ({ Name := "s", Index := 0, Error := some (GoError.new "se") }
        : HookStat GoError) ∈ (wpC4.Execute ()).statsOf.HookStats
    ∧ (∀ pe, (wpC4.Execute ()).errorOf = some pe → 0 < pe.HookIndex) :=
  claim_C4 wpC4 () [] skipFailHookW [tailHookW] (wpC4.initCtx ())
    (wpC4.initCtx ()) (wpC4.initCtx ()) [] [] (NewExecutionStats "w4")
    (GoError.new "se") rfl rfl rfl rfl rfl rfl

/-- First hook of the C5 witness pipeline: returns nil. -/
def okHookW5 : Hook Unit Unit Nat Unit GoError :=
  { Name := "a", Description := "", Handler := fun c => (c, Outcome.ok),
    Timeout := 0, SkipOnError := false }

/-- Second hook of the C5 witness pipeline: fails with skip-on-error. -/
def skipHookW5 : Hook Unit Unit Nat Unit GoError :=
  { Name := "b", Description := "",
    Handler := fun c => (c, Outcome.err (GoError.new "be")),
    Timeout := 0, SkipOnError := true }

/-- Pipeline with one clean hook and one skip-on-error failure. -/
def wpC5 : Pipeline Unit Unit Nat Unit GoError :=
  { Name := "w5", option := (), hooks := [okHookW5, skipHookW5],
    middlewares := [], beforeExecute := [], afterExecute := [],
    onError := 0 }

/-- Witness for C5: on the concrete run of `wpC5` (both hooks invoked, the
second failing skippably, no terminal error) the final stats list matches
the trace's completed-hook events one for one, entry `k` carries index `k`
and the name of hook `k`, `Success` is true iff the error is nil, and the
stats' error equals the terminal error. -/
theorem claim_C5_witness :
    ({ PipelineName := "w5",
       HookStats := [{ Name := "a", Index := 0, Error := none },
         { Name := "b", Index := 1, Error := some (GoError.new "be") }],
       Success := true, Error := none } : ExecutionStats GoError).HookStats.map
          statEvent
      = ([Event.hookRun 0 "a" none,
          Event.hookRun 1 "b" (some (GoError.new "be"))]).filter
            Event.isHookRun
    ∧ ({ PipelineName := "w5",
         HookStats := [{ Name := "a", Index := 0, Error := none },
           { Name := "b", Index := 1, Error := some (GoError.new "be") }],
         Success := true, Error := none }
            : ExecutionStats GoError).HookStats.length
        = (([Event.hookRun 0 "a" none,
            Event.hookRun 1 "b" (some (GoError.new "be"))]).filter
              Event.isHookRun).length
    ∧ (∀ (k : Nat) (s : HookStat GoError),
        ({ PipelineName := "w5",
           HookStats := [{ Name := "a", Index := 0, Error := none },
             { Name := "b", Index := 1, Error := some (GoError.new "be") }],
           Success := true, Error := none }
              : ExecutionStats GoError).HookStats[k]? = some s →
        s.Index = k ∧ ∃ h : Hook Unit Unit Nat Unit GoError,
          wpC5.hooks[k]? = some h ∧ s.Name = h.Name)
    ∧ (({ PipelineName := "w5",
          HookStats := [{ Name := "a", Index := 0, Error := none },
            { Name := "b", Index := 1, Error := some (GoError.new "be") }],
          Success := true, Error := none }
             : ExecutionStats GoError).Success = true
        ↔ (none : Option (PipeError GoError)) = none)
    ∧ ({ PipelineName := "w5",
         HookStats := [{ Name := "a", Index := 0, Error := none },
           { Name := "b", Index := 1, Error := some (GoError.new "be") }],
         Success := true, Error := none }
            : ExecutionStats GoError).Error
        = (none : Option (PipeError GoError)) :=
  claim_C5 wpC5 () (some 0) none
    { PipelineName := "w5",
      HookStats := [{ Name := "a", Index := 0, Error := none },
        { Name := "b", Index := 1, Error := some (GoError.new "be") }],
      Success := true, Error := none }
    [Event.hookRun 0 "a" none,
      Event.hookRun 1 "b" (some (GoError.new "be"))] rfl

/-- Handler that always fails with error "always". -/
def alwaysFailW : HookHandler Unit Unit Nat Unit GoError :=
  fun c => (c, Outcome.err (GoError.new "always"))

/-- Handler that always succeeds. -/
def okayW : HookHandler Unit Unit Nat Unit GoError :=
  fun c => (c, Outcome.ok)

/-- A concrete context for the retry witness. -/
def cW6 : PipeContext Unit Unit Nat Unit :=
  { Name := "w6", Opt := (), Payload := (), Result := 0,
    data := fun _ => none, abort := false }

/-- Handler that fails on its first attempt (marking the scratch map) and
succeeds on every later one. -/
def failOnceW : HookHandler Unit Unit Nat Unit GoError :=
  fun c =>
    match c.data "tried" with
    | some _ => (c, Outcome.ok)
    | none => (c.Set "tried" (), Outcome.err (GoError.new "first"))

/-- Witness for C6: with `maxRetries = 3` and backoff 100 wrapping an
always-failing handler there are exactly 4 attempts, the sleeps are
`[100, 200, 300]` (backoff times attempt number), and the final error's
message is "failed after 3 retries: always", wrapping the last attempt's
error.  A handler whose first attempt succeeds returns nil at once (one
attempt, no sleeps), and a handler that fails once and then succeeds
mid-run returns nil immediately after its second attempt: exactly 2
attempts and the single sleep `[100]`, with two retry budget units left
unused. -/
theorem claim_C6_witness :
    (∃ c'' e,
      retryRunFrom alwaysFailW 100 0 3 cW6
        = (c'', Outcome.err e, 3 + 1,
            (List.range' 1 3).map (fun a => 100 * a))
      ∧ RetryFunc 3 100 alwaysFailW cW6
          = (c'', Outcome.err (GoError.wrapf
              ("failed after " ++ toString 3 ++ " retries: ") e))
      ∧ (GoError.wrapf
            ("failed after " ++ toString 3 ++ " retries: ") e).message
          = "failed after " ++ toString 3 ++ " retries: " ++ e.message
      ∧ (GoError.wrapf
            ("failed after " ++ toString 3 ++ " retries: ") e).Unwrap
          = some e)
    ∧ (retryRunFrom okayW 100 0 3 cW6 = (cW6, Outcome.ok, 1, [])
        ∧ RetryFunc 3 100 okayW cW6 = (cW6, Outcome.ok))
    ∧ (retryRunFrom failOnceW 100 0 3 cW6
          = (cW6.Set "tried" (), Outcome.ok, 2, [100])
        ∧ RetryFunc 3 100 failOnceW cW6 = (cW6.Set "tried" (), Outcome.ok))
    ∧ (List.range' 1 3).map (fun a => 100 * a) = [100, 200, 300]
    ∧ (GoError.wrapf ("failed after " ++ toString 3 ++ " retries: ")
        (GoError.new "always")).message = "failed after 3 retries: always" :=
  ⟨claim_C6.1 3 100 alwaysFailW cW6 (fun _ => ⟨GoError.new "always", rfl⟩),
    claim_C6.2 3 100 0 okayW cW6 (by omega)
      (fun j hj => absurd hj (by omega)) rfl,
    claim_C6.2 3 100 1 failOnceW cW6 (by omega)
      (fun j hj => by
        have hj0 : j = 0 := by omega
        subst hj0
        exact ⟨GoError.new "first", rfl⟩)
      rfl,
    rfl, rfl⟩

/-- Hook that aborts during its invocation and returns nil. -/
def abortOkHookW : Hook Unit Unit Nat Unit GoError :=
  { Name := "q", Description := "",
    Handler := fun c => (c.Abort, Outcome.ok), Timeout := 0,
    SkipOnError := false }

/-- Later hook that must not run after the abort. -/
def neverHookW : Hook Unit Unit Nat Unit GoError :=
  { Name := "r", Description := "", Handler := fun c => (c, Outcome.ok),
    Timeout := 0, SkipOnError := false }

/-- Pipeline whose hook 0 aborts (returning nil) before hook 1; one
after-execute callback. -/
def wpC2 : Pipeline Unit Unit Nat Unit GoError :=
  { Name := "w2", option := (), hooks := [abortOkHookW, neverHookW],
    middlewares := [], beforeExecute := [],
    afterExecute := [fun c _ => c], onError := 0 }

/-- Witness for C2 (amended): on `wpC2`, hook 0 aborts and returns nil, so
`Execute` returns a non-nil result with a nil error, no hook past index 0
is invoked, and the registered after-execute callback still runs with the
nil final error. -/
theorem claim_C2_witness :
    ∃ r st2 tr2,
      wpC2.Execute () = ExecOutcome.returned (some r) none st2 tr2
      ∧ (∀ (j : Nat) (nm : String) (oe : Option GoError),
          Event.hookRun j nm oe ∈ tr2 → j ≤ 0)
      ∧ (∀ a, a < 1 → Event.afterCb a none ∈ tr2) :=
  claim_C2_amended wpC2 () [] abortOkHookW [neverHookW] (wpC2.initCtx ())
    (wpC2.initCtx ()) ((wpC2.initCtx ()).Abort) [] []
    (NewExecutionStats "w2") Outcome.ok rfl rfl rfl rfl rfl rfl
    (Or.inl rfl)

/-- First clean hook of the C8 witness pipeline. -/
def cleanHookX : Hook Unit Unit Nat Unit GoError :=
  { Name := "x", Description := "", Handler := fun c => (c, Outcome.ok),
    Timeout := 0, SkipOnError := false }

/-- Second clean hook of the C8 witness pipeline. -/
def cleanHookY : Hook Unit Unit Nat Unit GoError :=
  { Name := "y", Description := "", Handler := fun c => (c, Outcome.ok),
    Timeout := 0, SkipOnError := false }

/-- Two clean hooks, no middleware, one before- and one after-callback
(each leaving the context unchanged). -/
def wpC8 : Pipeline Unit Unit Nat Unit GoError :=
  { Name := "w8", option := (), hooks := [cleanHookX, cleanHookY],
    middlewares := [], beforeExecute := [fun c => c],
    afterExecute := [fun c _ => c], onError := 0 }

/-- Witness for C8 (amended): on `wpC8` every hook runs exactly once in
order, the before-callback event precedes the hook events, the
after-callback event follows them carrying the nil final error, and
`Execute` returns a non-nil result with a nil error. -/
theorem claim_C8_witness :
    ∃ r st2,
      wpC8.Execute () = ExecOutcome.returned (some r) none st2
        ([Event.beforeCb 0]
          ++ [Event.hookRun 0 "x" none, Event.hookRun 1 "y" none]
          ++ [Event.afterCb 0 none])
      ∧ st2.Success = true :=
  claim_C8_amended wpC8 ()
    (by
      intro h_ hm d
      have hm' : h_ = cleanHookX ∨ h_ = cleanHookY := by
        simpa [wpC8] using hm
      rcases hm' with rfl | rfl
      · exact ⟨rfl, rfl⟩
      · exact ⟨rfl, rfl⟩)
    (by
      intro f hf d
      have hf' : f = fun c => c := by simpa [wpC8] using hf
      rw [hf'])

/-- Hook whose handler reads the scratch map with `MustGet` on a key no
hook ever set, panicking. -/
def mgHookC9 : Hook Unit Unit Nat Unit GoError :=
  { Name := "mg", Description := "",
    Handler := fun c =>
      match c.MustGet "missing" with
      | MustGetOut.val _ => (c, Outcome.ok)
      | MustGetOut.panicked m => (c, Outcome.panicked m),
    Timeout := 0, SkipOnError := false }

/-- One-hook pipeline whose hook performs the failing `MustGet`. -/
def wpC9 : Pipeline Unit Unit Nat Unit GoError :=
  { Name := "w9", option := (), hooks := [mgHookC9], middlewares := [],
    beforeExecute := [], afterExecute := [], onError := 0 }

/-- Witness for C9: on the fresh context of `wpC9`, `MustGet "missing"`
panics with the message naming the key while `Get "missing"` returns
`(nil, false)`; running the pipeline whose hook performs that `MustGet`
makes `Execute` end as a propagating panic with empty stats (no stat
record, no terminal error) and an empty trace. -/
theorem claim_C9_witness :
    ((wpC9.initCtx ()).MustGet "missing"
        = MustGetOut.panicked ("key not found: " ++ "missing")
      ∧ (wpC9.initCtx ()).Get "missing" = (none, false))
    ∧ wpC9.Execute ()
        = ExecOutcome.panicked ("key not found: " ++ "missing")
            (NewExecutionStats "w9") [] :=
  ⟨(@claim_C9 Nat Unit Unit Unit GoError _).1 (wpC9.initCtx ()) "missing" rfl,
    claim_C9.2 wpC9 () [] mgHookC9 [] (wpC9.initCtx ()) (wpC9.initCtx ())
      (wpC9.initCtx ()) [] [] (NewExecutionStats "w9")
      ("key not found: " ++ "missing") rfl rfl rfl rfl rfl⟩
